import Mathlib

/-!
Verification of the kanban-mcp ticket manager (src/mcp-server/src/ticket-manager.ts,
src/mcp-server/src/types.ts) and its migration subsystem (src/mcp-server/src/migrations).

The TypeScript source is shallowly embedded: JSON objects `Record<string, Ticket>`
become association lists with JavaScript object semantics (lookup finds the first
matching key, assignment updates in place or appends, `Object.values` lists values
in insertion order), exceptions become `Except`, and the single terminal
`writeFileSync` of each operation is the storage component of the `ok` result,
so that "the persisted file after a call" is the original storage on `error`
and the returned storage on `ok` (function `persist`).
-/

namespace Kanban

/-- Embeds `Ticket` from src/mcp-server/src/types.ts.  The status union
`'open' | 'in-progress' | 'closed'` is kept as the literal strings the
JSON document stores. -/
structure Ticket where
  id : String
  title : String
  description : String
  projects : List String
  blockedBy : List String
  createdAt : String
  updatedAt : String
  status : String
deriving DecidableEq, Repr

/-- Embeds `TicketStorage` from types.ts: the whole persisted JSON document. -/
structure TicketStorage where
  version : String
  tickets : List (String × Ticket)
  nextId : Nat
deriving DecidableEq, Repr

/-- Embeds `TicketUpdateData` from types.ts; optional fields are `Option`
(an absent key of the JS object is `none`). -/
structure TicketUpdateData where
  ticketId : String
  title : Option String := none
  description : Option String := none
  blockedBy : Option (List String) := none
  status : Option String := none
deriving DecidableEq, Repr

/-- Embeds `TicketCreateData` from types.ts. -/
structure TicketCreateData where
  title : String
  description : String
  projects : List String
  blockedBy : Option (List String) := none
deriving DecidableEq, Repr

/-- Embeds `ResearchTreeNode` from types.ts. -/
inductive ResearchTreeNode where
  | mk (id : String) (title : String) (unblocks : List ResearchTreeNode)

def ResearchTreeNode.nodeId : ResearchTreeNode → String
  | .mk i _ _ => i

def ResearchTreeNode.nodeTitle : ResearchTreeNode → String
  | .mk _ t _ => t

def ResearchTreeNode.unblocks : ResearchTreeNode → List ResearchTreeNode
  | .mk _ _ u => u

/-- Embeds `NextTicket` from types.ts: a `Ticket` with `blockedBy` omitted and
a `researchTree` attached. -/
structure NextTicket where
  id : String
  title : String
  description : String
  projects : List String
  createdAt : String
  updatedAt : String
  status : String
  researchTree : List ResearchTreeNode

/-- Embeds `McpError` as thrown by ticket-manager.ts (only the two codes it uses). -/
inductive McpErr where
  | invalidParams (msg : String)
  | internalError (msg : String)
deriving DecidableEq, Repr

instance {ε α : Type} [DecidableEq ε] [DecidableEq α] : DecidableEq (Except ε α) :=
  fun a b =>
    match a, b with
    | .ok x, .ok y =>
      if h : x = y then .isTrue (by rw [h]) else .isFalse (by simp [h])
    | .ok _, .error _ => .isFalse (by simp)
    | .error _, .ok _ => .isFalse (by simp)
    | .error x, .error y =>
      if h : x = y then .isTrue (by rw [h]) else .isFalse (by simp [h])

/-- JS object read `obj[k]`: the value at key `k`, if present. -/
def getObj (m : List (String × Ticket)) (k : String) : Option Ticket :=
  match m with
  | [] => none
  | (k', v) :: rest => if k' = k then some v else getObj rest k

/-- JS object write `obj[k] = v`: overwrite in place if the key exists,
otherwise append (JS insertion order). -/
def setObj (m : List (String × Ticket)) (k : String) (v : Ticket) :
    List (String × Ticket) :=
  match m with
  | [] => [(k, v)]
  | (k', v') :: rest => if k' = k then (k, v) :: rest else (k', v') :: setObj rest k v

/-- JS `delete obj[k]`. -/
def delObj (m : List (String × Ticket)) (k : String) : List (String × Ticket) :=
  m.filter (fun e => e.1 ≠ k)

/-- JS `Object.values(obj)` in insertion order. -/
def valuesObj (m : List (String × Ticket)) : List Ticket :=
  m.map Prod.snd

/-- The persisted file after an operation: ticket-manager.ts calls
`writeFileSync` exactly once, as the last statement of a successful operation,
so a thrown error leaves the file as it was and `ok` leaves the storage the
operation wrote. -/
def persist {α : Type} (r : Except McpErr (α × TicketStorage))
    (file : TicketStorage) : TicketStorage :=
  match r with
  | .ok (_, s) => s
  | .error _ => file

/-- Embeds `generateId` (ticket-manager.ts, lines 63-67): formats
`TICKET-%04d` from `nextId` and increments the counter. -/
def generateId (s : TicketStorage) : String × TicketStorage :=
  (String.append "TICKET-" (Nat.toDigits 10 s.nextId |>.asString |> padLeft4),
    { s with nextId := s.nextId + 1 })
where
  /-- `toString().padStart(4, '0')`. -/
  padLeft4 (str : String) : String :=
    String.append (String.mk (List.replicate (4 - str.length) '0')) str

/-- Embeds `validateDependencies` (ticket-manager.ts, lines 69-78): each
dependency must differ from `excludeId` and exist in storage. -/
def validateDependencies (dependencies : List String) (s : TicketStorage)
    (excludeId : Option String) : Except McpErr Unit :=
  match dependencies with
  | [] => .ok ()
  | depId :: rest =>
    if some depId = excludeId then
      .error (.invalidParams "A ticket cannot depend on itself")
    else if (getObj s.tickets depId).isNone then
      .error (.invalidParams (String.append "Dependency ticket "
        (String.append depId " does not exist")))
    else validateDependencies rest s excludeId

/-- The adjacency function of the hypothetical graph used by
`checkCircularDependency` (ticket-manager.ts, line 90): for `ticketId` the
candidate `blockedBy` overrides any stored value, every other stored ticket
contributes its stored `blockedBy`, and absent ids have no edges. -/
def adjOf (ticketId : String) (blockedBy : List String) (s : TicketStorage)
    (id : String) : List String :=
  if id = ticketId then blockedBy
  else
    match getObj s.tickets id with
    | some t => t.blockedBy
    | none => []

/-- The `for (const depId of deps)` loop of the inner `hasCycle` closure
(ticket-manager.ts, lines 91-93): short-circuit on the first cycle,
threading the fully-processed set through the siblings.  `step` is the
recursive call on one dependency. -/
def hasCycleList (step : List String → String → Bool × List String) :
    List String → List String → Bool × List String
  | visited, [] => (false, visited)
  | visited, depId :: rest =>
    match step visited depId with
    | (true, visited') => (true, visited')
    | (false, visited') => hasCycleList step visited' rest

/-- Embeds the inner `hasCycle` closure of `checkCircularDependency`
(ticket-manager.ts, lines 84-98).  `visiting` is the on-current-path set,
`visited` the fully-processed set (threaded through, as the closure shares
one mutable set).  The TypeScript recursion is bounded by the sets
themselves; here a fuel argument makes it structural, and
`checkCircularDependency` passes fuel that is proved never to run out
(`0` fuel conservatively reports a cycle). -/
def hasCycleAux (adj : String → List String) :
    Nat → List String → List String → String → Bool × List String
  | 0, _, visited, _ => (true, visited)
  | fuel + 1, visiting, visited, id =>
    if id ∈ visiting then (true, visited)
    else if id ∈ visited then (false, visited)
    else
      match hasCycleList (fun vis d => hasCycleAux adj fuel (id :: visiting) vis d)
          visited (adj id) with
      | (true, visited') => (true, visited')
      | (false, visited') => (false, id :: visited')

/-- Every id the traversal of `checkCircularDependency ticketId blockedBy s`
can ever reach: the start node, the candidate edges, the stored keys and all
stored edges. -/
def allNodes (ticketId : String) (blockedBy : List String) (s : TicketStorage) :
    List String :=
  (ticketId :: blockedBy ++ s.tickets.map Prod.fst
    ++ (s.tickets.map (fun e => e.2.blockedBy)).flatten).dedup

/-- Fuel that `checkCircularDependency` hands to `hasCycleAux`; proved
sufficient below. -/
def cycleFuel (ticketId : String) (blockedBy : List String)
    (s : TicketStorage) : Nat :=
  (allNodes ticketId blockedBy s).length + 1

/-- Embeds `checkCircularDependency` (ticket-manager.ts, lines 80-103). -/
def checkCircularDependency (ticketId : String) (blockedBy : List String)
    (s : TicketStorage) : Except McpErr Unit :=
  if (hasCycleAux (adjOf ticketId blockedBy s) (cycleFuel ticketId blockedBy s)
      [] [] ticketId).1 then
    .error (.invalidParams "Circular dependency detected")
  else .ok ()

/-- Embeds `createTicket` (ticket-manager.ts, lines 105-130).  `now` stands
for `new Date().toISOString()`. -/
def createTicket (title description : String) (projects blockedBy : List String)
    (now : String) (s : TicketStorage) : Except McpErr (Ticket × TicketStorage) :=
  match validateDependencies blockedBy s none with
  | .error e => .error e
  | .ok _ =>
    let (id, s₁) := generateId s
    let ticket : Ticket :=
      { id := id, title := title, description := description, projects := projects,
        blockedBy := blockedBy, createdAt := now, updatedAt := now, status := "open" }
    match checkCircularDependency id blockedBy s₁ with
    | .error e => .error e
    | .ok _ => .ok (ticket, { s₁ with tickets := setObj s₁.tickets id ticket })

/-- First pass of `createTickets` (lines 137-141): validate every item's
dependencies against the original snapshot. -/
def validateAllCreate (items : List TicketCreateData) (s : TicketStorage) :
    Except McpErr Unit :=
  match items with
  | [] => .ok ()
  | it :: rest =>
    match validateDependencies (it.blockedBy.getD []) s none with
    | .error e => .error e
    | .ok _ => validateAllCreate rest s

/-- Second pass of `createTickets` (lines 143-164): mint ids, cycle-check
against the snapshot as it accumulates the new siblings, insert. -/
def createPass2 (now : String) :
    List TicketCreateData → TicketStorage → Except McpErr (List Ticket × TicketStorage)
  | [], s => .ok ([], s)
  | it :: rest, s =>
    let bb := it.blockedBy.getD []
    let (id, s₁) := generateId s
    let ticket : Ticket :=
      { id := id, title := it.title, description := it.description,
        projects := it.projects, blockedBy := bb, createdAt := now,
        updatedAt := now, status := "open" }
    match checkCircularDependency id bb s₁ with
    | .error e => .error e
    | .ok _ =>
      match createPass2 now rest { s₁ with tickets := setObj s₁.tickets id ticket } with
      | .error e => .error e
      | .ok (ts, s₂) => .ok (ticket :: ts, s₂)

/-- Embeds `createTickets` (ticket-manager.ts, lines 132-168). -/
def createTickets (items : List TicketCreateData) (now : String)
    (s : TicketStorage) : Except McpErr (List Ticket × TicketStorage) :=
  match validateAllCreate items s with
  | .error e => .error e
  | .ok _ => createPass2 now items s

/-- Phase 1 of `updateTickets` (lines 185-190): every referenced ticket must exist. -/
def updPhase1 : List TicketUpdateData → TicketStorage → Except McpErr Unit
  | [], _ => .ok ()
  | u :: rest, s =>
    if (getObj s.tickets u.ticketId).isNone then
      .error (.invalidParams (String.append "Ticket "
        (String.append u.ticketId " not found")))
    else updPhase1 rest s

/-- Phase 2 of `updateTickets` (lines 192-198): dependency and cycle checks,
each against the still-unmodified snapshot. -/
def updPhase2 : List TicketUpdateData → TicketStorage → Except McpErr Unit
  | [], _ => .ok ()
  | u :: rest, s =>
    match u.blockedBy with
    | some bb =>
      match validateDependencies bb s (some u.ticketId) with
      | .error e => .error e
      | .ok _ =>
        match checkCircularDependency u.ticketId bb s with
        | .error e => .error e
        | .ok _ => updPhase2 rest s
    | none => updPhase2 rest s

/-- The merge `{...ticket, ...updateFields, updatedAt: now}` of lines 203-210:
`ticketId` is destructured away, absent optional fields keep the stored value,
`updatedAt` is always overwritten. -/
def applyUpdate (t : Ticket) (u : TicketUpdateData) (now : String) : Ticket :=
  { id := t.id
    title := u.title.getD t.title
    description := u.description.getD t.description
    projects := t.projects
    blockedBy := u.blockedBy.getD t.blockedBy
    createdAt := t.createdAt
    updatedAt := now
    status := u.status.getD t.status }

/-- Phase 3 of `updateTickets` (lines 200-214): apply all updates.  The
`none` branch is unreachable after phase 1 succeeded. -/
def updPhase3 (now : String) :
    List TicketUpdateData → TicketStorage → List Ticket × TicketStorage
  | [], s => ([], s)
  | u :: rest, s =>
    match getObj s.tickets u.ticketId with
    | some t =>
      let t' := applyUpdate t u now
      let (ts, s') := updPhase3 now rest { s with tickets := setObj s.tickets u.ticketId t' }
      (t' :: ts, s')
    | none => updPhase3 now rest s

/-- Embeds `updateTickets` (ticket-manager.ts, lines 181-218). -/
def updateTickets (updates : List TicketUpdateData) (now : String)
    (s : TicketStorage) : Except McpErr (List Ticket × TicketStorage) :=
  match updPhase1 updates s with
  | .error e => .error e
  | .ok _ =>
    match updPhase2 updates s with
    | .error e => .error e
    | .ok _ => .ok (updPhase3 now updates s)

/-- The per-ticket mutation of `deleteTicket` (ticket-manager.ts, line 229):
`ticket.blockedBy = ticket.blockedBy.filter(dep => dep !== ticketId)`. -/
def stripDep (ticketId : String) (t : Ticket) : Ticket :=
  { t with blockedBy := t.blockedBy.filter (fun dep => dep ≠ ticketId) }

/-- Embeds `deleteTicket` (ticket-manager.ts, lines 220-236): strip the id
from every ticket's `blockedBy`, then remove the ticket. -/
def deleteTicket (ticketId : String) (s : TicketStorage) :
    Except McpErr (Bool × TicketStorage) :=
  if (getObj s.tickets ticketId).isNone then
    .error (.invalidParams (String.append "Ticket "
      (String.append ticketId " not found")))
  else
    let stripped := s.tickets.map (fun e => (e.1, stripDep ticketId e.2))
    .ok (true, { s with tickets := delObj stripped ticketId })

/-- The `dependents.map` of `buildResearchTree` (ticket-manager.ts,
lines 285-289), building one node per dependent; `step` is the recursive
call on one dependent's id. -/
def buildAuxList (step : String → Option (List ResearchTreeNode)) :
    List Ticket → Option (List ResearchTreeNode)
  | [] => some []
  | d :: rest =>
    match step d.id with
    | none => none
    | some sub =>
      match buildAuxList step rest with
      | none => none
      | some ns => some (.mk d.id d.title sub :: ns)

/-- Embeds `buildResearchTree` (ticket-manager.ts, lines 266-295): reverse
traversal with a path-local visited set (the TypeScript copies the set into
each recursive branch with `new Set(visitedIds)`, so functionally each call
receives `ticketId :: visitedIds`).  The TypeScript has no fuel; `fuel = 0`
yields `none`, and `buildResearchTree` below passes fuel proved sufficient. -/
def buildAux (s : TicketStorage) :
    Nat → String → List String → Option (List ResearchTreeNode)
  | 0, _, _ => none
  | fuel + 1, ticketId, visitedIds =>
    if ticketId ∈ visitedIds then some []
    else
      let dependents := (valuesObj s.tickets).filter
        (fun t => t.blockedBy.contains ticketId && t.status != "closed")
      buildAuxList (fun i => buildAux s fuel i (ticketId :: visitedIds)) dependents

/-- Fuel handed to `buildAux`; proved sufficient below (every recursion path
is strictly shorter than the number of distinct stored ticket ids, plus the
possibly foreign start id). -/
def buildFuel (s : TicketStorage) : Nat :=
  ((valuesObj s.tickets).map Ticket.id).dedup.length + 2

/-- `buildResearchTree(ticketId, storage)` with the default empty visited set. -/
def buildResearchTree (ticketId : String) (s : TicketStorage) :
    List ResearchTreeNode :=
  (buildAux s (buildFuel s) ticketId []).getD []

/-- The readiness filter of `nextTickets` (ticket-manager.ts, lines 302-318):
never closed, and `blockedBy` empty or every referenced ticket closed (a
missing reference makes the ticket not ready). -/
def nextFilter (s : TicketStorage) (t : Ticket) : Bool :=
  if t.status = "closed" then false
  else if t.blockedBy.isEmpty then true
  else t.blockedBy.all (fun depId =>
    match getObj s.tickets depId with
    | some depTicket => depTicket.status = "closed"
    | none => false)

/-- The case-insensitive project filter (lines 320-330; the legacy
`projectId` fallback is dead for documents of the typed shape, where
`projects` is always present). -/
def projectFilter (project : String) (t : Ticket) : Bool :=
  t.projects.any (fun p => p.toLower = project.toLower)

/-- Embeds `nextTickets` (ticket-manager.ts, lines 297-343).  `dateKey`
abstracts `new Date(x).getTime()` (date parsing is outside the embedding);
every theorem below holds for an arbitrary key. -/
def nextTickets (project : Option String) (dateKey : String → Int)
    (s : TicketStorage) : List NextTicket :=
  let ready := (valuesObj s.tickets).filter (nextFilter s)
  let visible :=
    match project with
    | some p => ready.filter (projectFilter p)
    | none => ready
  let sorted := visible.mergeSort (fun a b => dateKey b.createdAt ≤ dateKey a.createdAt)
  sorted.map (fun t =>
    { id := t.id, title := t.title, description := t.description,
      projects := t.projects, createdAt := t.createdAt,
      updatedAt := t.updatedAt, status := t.status,
      researchTree := buildResearchTree t.id s })

/-- Embeds `MigrationPath` from src/mcp-server/src/migrations/index.ts
(src/unnamed/part_000, lines 9-14).  The `migrate` closure performs file
I/O; executions below are tracked as the list of steps applied. -/
structure MigrationStep where
  fromVersion : String
  toVersion : String
  migrationFile : String
deriving DecidableEq, Repr

/-- The enqueue loop of `findMigrationPath` (part_000, lines 108-116):
push every migration out of the current version whose target is unvisited,
marking targets visited as they are enqueued. -/
def pushSuccessors (path : List MigrationStep) :
    List MigrationStep → List String → List (String × List MigrationStep) →
    List (String × List MigrationStep) × List String
  | [], visited, acc => (acc, visited)
  | mg :: rest, visited, acc =>
    if mg.toVersion ∈ visited then pushSuccessors path rest visited acc
    else pushSuccessors path rest (mg.toVersion :: visited)
      (acc ++ [(mg.toVersion, path ++ [mg])])

/-- The BFS loop of `findMigrationPath` (part_000, lines 96-117):
dequeue from the front, return the path on reaching the target, otherwise
enqueue unvisited successors.  Fuel replaces the `while`; it is proved
sufficient below (`0` fuel returns the no-path answer). -/
def bfsAux (migrations : List MigrationStep) (toVersion : String) :
    Nat → List (String × List MigrationStep) → List String → List MigrationStep
  | _, [], _ => []
  | 0, _ :: _, _ => []
  | fuel + 1, (currentVersion, path) :: rest, visited =>
    if currentVersion = toVersion then path
    else
      let possible := migrations.filter (fun mg => mg.fromVersion = currentVersion)
      let (queue', visited') := pushSuccessors path possible visited rest
      bfsAux migrations toVersion fuel queue' visited'

/-- Embeds `findMigrationPath` (part_000, lines 89-120). -/
def findMigrationPath (migrations : List MigrationStep)
    (fromVersion toVersion : String) : List MigrationStep :=
  bfsAux migrations toVersion (migrations.length + 1)
    [(fromVersion, [])] [fromVersion]

/-- A raw ticket as `detectDataVersion` sniffs it: only the presence of the
`dependencies` / `blockedBy` array fields matters. -/
structure RawTicket where
  dependencies : Option (List String) := none
  blockedBy : Option (List String) := none
deriving DecidableEq, Repr

/-- A raw parsed document as `detectDataVersion` sees it: `version` may be
absent (`none`) or present (JavaScript truthiness: the empty string is
falsy), `tickets` may be absent. -/
structure RawData where
  version : Option String := none
  tickets : Option (List (String × RawTicket)) := none
deriving DecidableEq, Repr

/-- The application's current schema version (part_000, line 19). -/
def currentAppVersion : String := "0.2.0"

/-- Embeds `detectDataVersion` (part_000, lines 122-146). -/
def detectDataVersion (raw : RawData) : String :=
  match raw.version with
  | some v => if v = "" then detectStructural raw else v
  | none => detectStructural raw
where
  /-- Structural sniff of the first ticket (lines 128-145). -/
  detectStructural (raw : RawData) : String :=
    match raw.tickets with
    | some ((_, firstTicket) :: _) =>
      if firstTicket.dependencies.isSome then "0.1.0"
      else if firstTicket.blockedBy.isSome then "0.2.0"
      else "0.1.0"
    | _ => "0.1.0"

/-- Embeds `runMigrationIfNeeded` (part_000, lines 25-55), with the
migration catalog passed in (the source discovers it from the filesystem)
and the effect abstracted to the list of migration steps executed: each
executed step writes one backup and one data file (part_001); an empty list
means the function returned at line 33 with no write and no backup. -/
def runMigrationIfNeeded (migrations : List MigrationStep) (raw : RawData) :
    Except String (List MigrationStep) :=
  let currentDataVersion := detectDataVersion raw
  if currentDataVersion = currentAppVersion then .ok []
  else
    let migrationPath := findMigrationPath migrations currentDataVersion currentAppVersion
    if migrationPath.isEmpty then
      .error (String.append "No migration path from "
        (String.append currentDataVersion (String.append " to " currentAppVersion)))
    else .ok migrationPath

/-- Embeds `LegacyTicket_v0_1_0` (src/unnamed/part_001, lines 5-14). -/
structure LegacyTicket where
  id : String
  title : String
  description : String
  projects : List String
  dependencies : List String
  createdAt : String
  updatedAt : String
  status : String
deriving DecidableEq, Repr

/-- Embeds `LegacyTicketStorage_v0_1_0` (part_001, lines 16-19). -/
structure LegacyTicketStorage where
  tickets : List (String × LegacyTicket)
  nextId : Nat
deriving DecidableEq, Repr

/-- The per-ticket conversion of `migrateFrom0_1_0To0_2_0` (part_001,
lines 33-40): spread the legacy ticket, rename `dependencies` to
`blockedBy` verbatim, drop the old field. -/
def migrateTicket (lt : LegacyTicket) : Ticket :=
  { id := lt.id, title := lt.title, description := lt.description,
    projects := lt.projects, blockedBy := lt.dependencies,
    createdAt := lt.createdAt, updatedAt := lt.updatedAt, status := lt.status }

/-- What `migrateFrom0_1_0To0_2_0` (part_001, lines 21-50) writes: the
backup file gets the original content, the data file the converted document. -/
structure MigrationOutput where
  backup : LegacyTicketStorage
  newData : TicketStorage
deriving DecidableEq, Repr

/-- Embeds `migrateFrom0_1_0To0_2_0` (part_001, lines 21-50). -/
def migrateFrom0_1_0To0_2_0 (legacy : LegacyTicketStorage) : MigrationOutput :=
  { backup := legacy
    newData :=
      { version := "0.2.0"
        tickets := legacy.tickets.map (fun e => (e.1, migrateTicket e.2))
        nextId := legacy.nextId } }

/-! ### Sample documents used by witnesses -/

/-- An open ticket with no dependencies. -/
def ticketA : Ticket :=
  { id := "TICKET-0001", title := "first", description := "", projects := [],
    blockedBy := [], createdAt := "2024-01-01T00:00:00.000Z",
    updatedAt := "2024-01-01T00:00:00.000Z", status := "open" }

/-- A second open ticket with no dependencies. -/
def ticketB : Ticket :=
  { id := "TICKET-0002", title := "second", description := "", projects := [],
    blockedBy := [], createdAt := "2024-01-02T00:00:00.000Z",
    updatedAt := "2024-01-02T00:00:00.000Z", status := "open" }

/-- A ticket blocked by `TICKET-0001`. -/
def ticketC : Ticket :=
  { id := "TICKET-0003", title := "third", description := "", projects := ["p1"],
    blockedBy := ["TICKET-0001"], createdAt := "2024-01-03T00:00:00.000Z",
    updatedAt := "2024-01-03T00:00:00.000Z", status := "open" }

/-- A two-ticket document with no dependencies at all. -/
def storageAB : TicketStorage :=
  { version := "0.2.0",
    tickets := [("TICKET-0001", ticketA), ("TICKET-0002", ticketB)],
    nextId := 3 }

/-- A three-ticket document where `TICKET-0003` is blocked by `TICKET-0001`. -/
def storageABC : TicketStorage :=
  { version := "0.2.0",
    tickets := [("TICKET-0001", ticketA), ("TICKET-0002", ticketB),
      ("TICKET-0003", ticketC)],
    nextId := 4 }

/-! ### Spec-side notions and concrete inputs used by the theorems -/

/-- The concrete batch used by the C10 witness: close `TICKET-0001`. -/
def closeBatch : List TicketUpdateData :=
  [{ ticketId := "TICKET-0001", status := some "closed" }]

/-- The invalid concrete batch used by the C2 witness (spec scenario 6):
one valid update plus an update addressing a missing id. -/
def badBatch : List TicketUpdateData :=
  [{ ticketId := "TICKET-0001", blockedBy := some ["TICKET-0002"] },
   { ticketId := "MISSING", title := some "x" }]

/-- The batch whose two updates are only jointly cyclic. -/
def jointlyCyclicBatch : List TicketUpdateData :=
  [{ ticketId := "TICKET-0001", blockedBy := some ["TICKET-0002"] },
   { ticketId := "TICKET-0002", blockedBy := some ["TICKET-0001"] }]

/-- A document in which `TICKET-0002` is blocked by `TICKET-0001` (spec
scenario 1's starting point for the cycle rejection). -/
def storageBA : TicketStorage :=
  { version := "0.2.0",
    tickets := [("TICKET-0001", ticketA),
      ("TICKET-0002", { ticketB with blockedBy := ["TICKET-0001"] })],
    nextId := 3 }

/-- A legacy v0.1.0 document whose single ticket depends on itself. -/
def selfRefLegacy : LegacyTicketStorage :=
  { tickets := [("TICKET-0001",
      { id := "TICKET-0001", title := "legacy", description := "", projects := [],
        dependencies := ["TICKET-0001"], createdAt := "2023-01-01T00:00:00.000Z",
        updatedAt := "2023-01-01T00:00:00.000Z", status := "open" })],
    nextId := 2 }

/-- A one-ticket document for the C4 witness. -/
def storageA : TicketStorage :=
  { version := "0.2.0", tickets := [("TICKET-0001", ticketA)], nextId := 2 }

/-- What `nextTickets` returns on `storageA`. -/
def nextA : NextTicket :=
  { id := "TICKET-0001", title := "first", description := "", projects := [],
    createdAt := "2024-01-01T00:00:00.000Z", updatedAt := "2024-01-01T00:00:00.000Z",
    status := "open", researchTree := [] }

/-- Every node of a research-tree forest names a stored ticket whose status
is not `closed`. -/
def closedFreeForest (s : TicketStorage) : List ResearchTreeNode → Bool
  | [] => true
  | .mk i _ ub :: ns =>
    ((valuesObj s.tickets).any (fun t => t.id == i && t.status != "closed"))
      && closedFreeForest s ub && closedFreeForest s ns

/-- The distinct stored ids not yet on the visited path: the measure that
shrinks along every recursion path of `buildAux`. -/
def freshCount (s : TicketStorage) (v : List String) : Nat :=
  ((((valuesObj s.tickets).map Ticket.id).dedup).filter (fun y => y ∉ v)).length

/-- One edge of the dependency graph: `b` is among `a`'s `blockedBy`. -/
def DepEdge (adj : String → List String) (a b : String) : Prop :=
  b ∈ adj a

/-- A cycle is reachable from `root`: some vertex reachable from `root`
lies on a nonempty cycle. -/
def CycleReachable (adj : String → List String) (root : String) : Prop :=
  ∃ v, Relation.ReflTransGen (DepEdge adj) root v ∧
    Relation.TransGen (DepEdge adj) v v

/-- The `visiting` list is exactly the DFS path from `root` down to the
caller of the current node `id`: `[]` means `id = root`; `v :: rest` means
`v → id` is an edge and `v` itself sits at the end of the path `rest`. -/
def IsStack (adj : String → List String) (root : String) :
    List String → String → Prop
  | [], id => id = root
  | v :: rest, id => DepEdge adj v id ∧ IsStack adj root rest v

/-- The invariant of the fully-processed ("black") set: it is closed under
edges and none of its members lies on a cycle. -/
def BlackInv (adj : String → List String) (visited : List String) : Prop :=
  (∀ v ∈ visited, ∀ u, DepEdge adj v u → u ∈ visited) ∧
  (∀ v ∈ visited, ¬ Relation.TransGen (DepEdge adj) v v)

/-- `IsChain m a p b`: the steps `p`, all drawn from the catalog `m`, form a
chain of migrations from version `a` to version `b`. -/
def IsChain (m : List MigrationStep) : String → List MigrationStep → String → Prop
  | a, [], b => a = b
  | a, st :: rest, b => st ∈ m ∧ st.fromVersion = a ∧ IsChain m st.toVersion rest b

/-- The catalog edge `0.1.0 → 0.2.0` of the claim's concrete instance. -/
def stepA : MigrationStep :=
  { fromVersion := "0.1.0", toVersion := "0.2.0",
    migrationFile := "v0_1_0_to_v0_2_0.js" }

/-- The catalog edge `0.2.0 → 0.3.0` of the claim's concrete instance. -/
def stepB : MigrationStep :=
  { fromVersion := "0.2.0", toVersion := "0.3.0",
    migrationFile := "v0_2_0_to_v0_3_0.js" }

/-! ### Association-list lemmas (JS object semantics) -/

theorem getObj_setObj_self (m : List (String × Ticket)) (k : String) (v : Ticket) :
    getObj (setObj m k v) k = some v := by
  induction m with
  | nil => simp [setObj, getObj]
  | cons e rest ih =>
    obtain ⟨k', v'⟩ := e
    by_cases h : k' = k
    · simp [setObj, h, getObj]
    · simp [setObj, h, getObj, ih]

theorem getObj_setObj_ne (m : List (String × Ticket)) (k k' : String) (v : Ticket)
    (h : k' ≠ k) : getObj (setObj m k v) k' = getObj m k' := by
  have h' : ¬ (k = k') := fun hh => h hh.symm
  induction m with
  | nil => simp [setObj, getObj, h']
  | cons e rest ih =>
    obtain ⟨k₀, v₀⟩ := e
    by_cases h₀ : k₀ = k
    · subst h₀
      simp [setObj, getObj, h']
    · by_cases h₁ : k₀ = k'
      · simp [setObj, getObj, h₀, h₁, h]
      · simp [setObj, getObj, h₀, h₁, ih]

theorem getObj_delObj_self (m : List (String × Ticket)) (k : String) :
    getObj (delObj m k) k = none := by
  induction m with
  | nil => simp [delObj, getObj]
  | cons e rest ih =>
    obtain ⟨k₀, v₀⟩ := e
    by_cases h : k₀ = k
    · simpa [delObj, h] using ih
    · simpa [delObj, getObj, h] using ih

theorem getObj_delObj_ne (m : List (String × Ticket)) (k k' : String)
    (h : k' ≠ k) : getObj (delObj m k) k' = getObj m k' := by
  have h' : ¬ (k = k') := fun hh => h hh.symm
  induction m with
  | nil => simp [delObj]
  | cons e rest ih =>
    obtain ⟨k₀, v₀⟩ := e
    by_cases h₀ : k₀ = k
    · subst h₀
      simpa [delObj, getObj, h'] using ih
    · by_cases h₁ : k₀ = k'
      · simp [delObj, getObj, h₀, h₁, h]
      · simpa [delObj, getObj, h₀, h₁] using ih

theorem getObj_mapValues (f : Ticket → Ticket) (m : List (String × Ticket))
    (k : String) :
    getObj (m.map (fun e => (e.1, f e.2))) k = (getObj m k).map f := by
  induction m with
  | nil => simp [getObj]
  | cons e rest ih =>
    obtain ⟨k₀, v₀⟩ := e
    by_cases h : k₀ = k
    · simp [getObj, h]
    · simp [getObj, h, ih]

/-! ### C8: no-op migration on a current-version document -/

/-- C8: running the migration check on a document whose detected version is
already the application's current version returns without executing any
migration step — no data-file write and no backup (the empty step list). -/
theorem runMigrationIfNeeded_noop_when_current (migrations : List MigrationStep)
    (raw : RawData) (h : detectDataVersion raw = currentAppVersion) :
    runMigrationIfNeeded migrations raw = .ok [] := by
  unfold runMigrationIfNeeded
  simp [h]

/-- Witness for C8 at a concrete already-migrated document. -/
theorem runMigrationIfNeeded_noop_when_current_witness :
    detectDataVersion { version := some "0.2.0" } = currentAppVersion ∧
    runMigrationIfNeeded [] { version := some "0.2.0" } = .ok [] :=
  ⟨by decide, runMigrationIfNeeded_noop_when_current [] _ (by decide)⟩

/-! ### C9: deleteTicket frame conditions -/

/-- C9: deleting an existing id persists a document without that key, in
which every remaining ticket's `blockedBy` has exactly the occurrences of
the deleted id removed and all other fields (including `updatedAt`) are
unchanged; deleting a missing id fails and leaves the persisted document
untouched. -/
theorem deleteTicket_frame (s : TicketStorage) (ticketId : String) :
    ((getObj s.tickets ticketId).isSome →
      (∃ r, deleteTicket ticketId s = .ok (true, r)) ∧
        getObj (persist (deleteTicket ticketId s) s).tickets ticketId = none ∧
        (∀ k, k ≠ ticketId →
          getObj (persist (deleteTicket ticketId s) s).tickets k =
            (getObj s.tickets k).map (stripDep ticketId)) ∧
        (persist (deleteTicket ticketId s) s).version = s.version ∧
        (persist (deleteTicket ticketId s) s).nextId = s.nextId) ∧
    ((getObj s.tickets ticketId).isNone →
      (∃ e, deleteTicket ticketId s = .error e) ∧
        persist (deleteTicket ticketId s) s = s) := by
  constructor
  · intro hsome
    cases hgo : getObj s.tickets ticketId with
    | none => rw [hgo] at hsome; simp at hsome
    | some t =>
      have hdel : deleteTicket ticketId s =
          .ok (true, { s with tickets :=
              (delObj (s.tickets.map (fun e => (e.1, stripDep ticketId e.2))) ticketId) }) := by
        simp [deleteTicket, hgo]
      rw [hdel]
      refine ⟨⟨_, rfl⟩, ?_, ?_, rfl, rfl⟩
      · exact getObj_delObj_self _ _
      · intro k hk
        show getObj (delObj _ ticketId) k = _
        rw [getObj_delObj_ne _ _ _ hk, getObj_mapValues]
  · intro hnone
    have hdel : deleteTicket ticketId s = .error (.invalidParams (String.append "Ticket "
        (String.append ticketId " not found"))) := by
      simp [deleteTicket, hnone]
    rw [hdel]
    exact ⟨⟨_, rfl⟩, rfl⟩

/-- Witness for C9: delete `TICKET-0001` from the three-ticket document;
`TICKET-0003` loses the dependency and nothing else changes. -/
theorem deleteTicket_frame_witness :
    (∃ r, deleteTicket "TICKET-0001" storageABC = .ok (true, r)) ∧
      getObj (persist (deleteTicket "TICKET-0001" storageABC) storageABC).tickets
        "TICKET-0001" = none ∧
      (∀ k, k ≠ "TICKET-0001" →
        getObj (persist (deleteTicket "TICKET-0001" storageABC) storageABC).tickets k =
          (getObj storageABC.tickets k).map (stripDep "TICKET-0001")) ∧
      (persist (deleteTicket "TICKET-0001" storageABC) storageABC).version =
        storageABC.version ∧
      (persist (deleteTicket "TICKET-0001" storageABC) storageABC).nextId =
        storageABC.nextId :=
  (deleteTicket_frame storageABC "TICKET-0001").1 (by decide)

/-! ### Phase lemmas for updateTickets -/

theorem updPhase1_ok_isSome (updates : List TicketUpdateData) (s : TicketStorage)
    (h : updPhase1 updates s = .ok ()) :
    ∀ u ∈ updates, (getObj s.tickets u.ticketId).isSome := by
  induction updates with
  | nil => intro u hu; cases hu
  | cons u₀ rest ih =>
    intro u hu
    by_cases h₀ : (getObj s.tickets u₀.ticketId).isNone
    · simp [updPhase1, h₀] at h
    · have hrest : updPhase1 rest s = .ok () := by
        simpa [updPhase1, h₀] using h
      rcases List.mem_cons.mp hu with h₁ | h₁
      · subst h₁
        simpa [Option.isSome_iff_ne_none, Option.isNone_iff_eq_none] using h₀
      · exact ih hrest u h₁

theorem updPhase3_getObj_notin (now : String) (updates : List TicketUpdateData)
    (s : TicketStorage) (k : String) (h : ∀ u ∈ updates, u.ticketId ≠ k) :
    getObj (updPhase3 now updates s).2.tickets k = getObj s.tickets k := by
  induction updates generalizing s with
  | nil => rfl
  | cons u₀ rest ih =>
    have hk : u₀.ticketId ≠ k := h u₀ (List.mem_cons_self _ _)
    have hrest : ∀ u ∈ rest, u.ticketId ≠ k := fun u hu => h u (List.mem_cons_of_mem _ hu)
    cases hgo : getObj s.tickets u₀.ticketId with
    | none => simpa [updPhase3, hgo] using ih _ hrest
    | some t =>
      rw [show updPhase3 now (u₀ :: rest) s =
        (let r := updPhase3 now rest { s with tickets :=
          (setObj s.tickets u₀.ticketId (applyUpdate t u₀ now)) };
          (applyUpdate t u₀ now :: r.1, r.2)) by simp [updPhase3, hgo]]
      rw [ih _ hrest]
      exact getObj_setObj_ne _ _ _ _ (fun hh => hk hh.symm)

theorem updPhase3_getObj_mem (now : String) (updates : List TicketUpdateData)
    (s : TicketStorage) (u : TicketUpdateData) (t : Ticket)
    (hnd : (updates.map TicketUpdateData.ticketId).Nodup) (hu : u ∈ updates)
    (hget : getObj s.tickets u.ticketId = some t) :
    getObj (updPhase3 now updates s).2.tickets u.ticketId =
      some (applyUpdate t u now) := by
  induction updates generalizing s with
  | nil => cases hu
  | cons u₀ rest ih =>
    have hnd' := hnd
    rw [List.map_cons, List.nodup_cons] at hnd'
    rcases List.mem_cons.mp hu with h₁ | h₁
    · subst h₁
      rw [show updPhase3 now (u :: rest) s =
        (let r := updPhase3 now rest { s with tickets :=
          (setObj s.tickets u.ticketId (applyUpdate t u now)) };
          (applyUpdate t u now :: r.1, r.2)) by simp [updPhase3, hget]]
      have hnotin : ∀ u' ∈ rest, u'.ticketId ≠ u.ticketId := by
        intro u' hu' heq
        exact hnd'.1 (heq ▸ List.mem_map_of_mem TicketUpdateData.ticketId hu')
      rw [updPhase3_getObj_notin now rest _ _ hnotin]
      exact getObj_setObj_self _ _ _
    · have hne : u.ticketId ≠ u₀.ticketId := by
        intro heq
        exact hnd'.1 (heq ▸ List.mem_map_of_mem TicketUpdateData.ticketId h₁)
      cases hgo : getObj s.tickets u₀.ticketId with
      | none =>
        rw [show updPhase3 now (u₀ :: rest) s = updPhase3 now rest s by
          simp [updPhase3, hgo]]
        exact ih s hnd'.2 h₁ hget
      | some t₀ =>
        rw [show updPhase3 now (u₀ :: rest) s =
          (let r := updPhase3 now rest { s with tickets :=
            (setObj s.tickets u₀.ticketId (applyUpdate t₀ u₀ now)) };
            (applyUpdate t₀ u₀ now :: r.1, r.2)) by simp [updPhase3, hgo]]
        exact ih _ hnd'.2 h₁ (by
          rw [show ({ s with tickets := (setObj s.tickets u₀.ticketId (applyUpdate t₀ u₀ now)) } :
            TicketStorage).tickets = setObj s.tickets u₀.ticketId (applyUpdate t₀ u₀ now) from rfl,
            getObj_setObj_ne _ _ _ _ hne]
          exact hget)

theorem updateTickets_ok_elim (updates : List TicketUpdateData) (now : String)
    (s : TicketStorage) (ts : List Ticket) (s' : TicketStorage)
    (hok : updateTickets updates now s = .ok (ts, s')) :
    updPhase1 updates s = .ok () ∧ updPhase2 updates s = .ok () ∧
      ts = (updPhase3 now updates s).1 ∧ s' = (updPhase3 now updates s).2 := by
  cases h₁ : updPhase1 updates s with
  | error e => simp [updateTickets, h₁] at hok
  | ok unit₁ =>
    cases h₂ : updPhase2 updates s with
    | error e => simp [updateTickets, h₁, h₂] at hok
    | ok unit₂ =>
      have hthis := hok
      simp [updateTickets, h₁, h₂] at hthis
      exact ⟨rfl, rfl, by rw [hthis], by rw [hthis]⟩

/-! ### C10: updateTickets preserves non-updated fields -/

/-- C10: a successful batch update keeps each updated ticket's `id`,
`createdAt` and `projects`, keeps every field absent from its update record,
and stamps every updated ticket with the one shared `updatedAt` timestamp
(`now`).  `Nodup` reflects the batch addressing each ticket at most once
(with a duplicated id the later record wins field by field). -/
theorem updateTickets_frame (updates : List TicketUpdateData) (now : String)
    (s : TicketStorage) (ts : List Ticket) (s' : TicketStorage)
    (hok : updateTickets updates now s = .ok (ts, s'))
    (hnd : (updates.map TicketUpdateData.ticketId).Nodup) :
    ∀ u ∈ updates, ∃ t, getObj s.tickets u.ticketId = some t ∧
      getObj s'.tickets u.ticketId = some (applyUpdate t u now) ∧
      (applyUpdate t u now).id = t.id ∧
      (applyUpdate t u now).createdAt = t.createdAt ∧
      (applyUpdate t u now).projects = t.projects ∧
      (applyUpdate t u now).updatedAt = now ∧
      (u.title = none → (applyUpdate t u now).title = t.title) ∧
      (u.description = none → (applyUpdate t u now).description = t.description) ∧
      (u.blockedBy = none → (applyUpdate t u now).blockedBy = t.blockedBy) ∧
      (u.status = none → (applyUpdate t u now).status = t.status) := by
  obtain ⟨h₁, _h₂, _hts, hs'⟩ := updateTickets_ok_elim updates now s ts s' hok
  intro u hu
  obtain ⟨t, hget⟩ := Option.isSome_iff_exists.mp (updPhase1_ok_isSome updates s h₁ u hu)
  refine ⟨t, hget, ?_, rfl, rfl, rfl, rfl, ?_, ?_, ?_, ?_⟩
  · rw [hs']
    exact updPhase3_getObj_mem now updates s u t hnd hu hget
  · intro hnone; simp [applyUpdate, hnone]
  · intro hnone; simp [applyUpdate, hnone]
  · intro hnone; simp [applyUpdate, hnone]
  · intro hnone; simp [applyUpdate, hnone]

/-- Witness for C10 on a concrete document and batch. -/
theorem updateTickets_frame_witness :
    ∃ ts s', updateTickets closeBatch "2024-02-02T00:00:00.000Z" storageAB = .ok (ts, s') ∧
      ∀ u ∈ closeBatch, ∃ t, getObj storageAB.tickets u.ticketId = some t ∧
        getObj s'.tickets u.ticketId = some (applyUpdate t u "2024-02-02T00:00:00.000Z") ∧
        (applyUpdate t u "2024-02-02T00:00:00.000Z").id = t.id ∧
        (applyUpdate t u "2024-02-02T00:00:00.000Z").createdAt = t.createdAt ∧
        (applyUpdate t u "2024-02-02T00:00:00.000Z").projects = t.projects ∧
        (applyUpdate t u "2024-02-02T00:00:00.000Z").updatedAt = "2024-02-02T00:00:00.000Z" ∧
        (u.title = none → (applyUpdate t u "2024-02-02T00:00:00.000Z").title = t.title) ∧
        (u.description = none →
          (applyUpdate t u "2024-02-02T00:00:00.000Z").description = t.description) ∧
        (u.blockedBy = none →
          (applyUpdate t u "2024-02-02T00:00:00.000Z").blockedBy = t.blockedBy) ∧
        (u.status = none → (applyUpdate t u "2024-02-02T00:00:00.000Z").status = t.status) :=
  ⟨_, _, rfl, updateTickets_frame closeBatch "2024-02-02T00:00:00.000Z" storageAB _ _
    rfl (by decide)⟩

/-! ### Error-propagation lemmas for the batch operations -/

theorem updPhase1_error_of_missing (updates : List TicketUpdateData)
    (s : TicketStorage) (u : TicketUpdateData) (hu : u ∈ updates)
    (hmiss : getObj s.tickets u.ticketId = none) :
    ∃ e, updPhase1 updates s = .error e := by
  induction updates with
  | nil => cases hu
  | cons u₀ rest ih =>
    by_cases h₀ : (getObj s.tickets u₀.ticketId).isNone
    · exact ⟨.invalidParams (String.append "Ticket "
        (String.append u₀.ticketId " not found")), by simp [updPhase1, h₀]⟩
    · rcases List.mem_cons.mp hu with h₁ | h₁
      · subst h₁
        exact absurd (by simp [hmiss]) h₀
      · obtain ⟨e, he⟩ := ih h₁
        exact ⟨e, by simp [updPhase1, h₀, he]⟩

theorem validateAllCreate_error (items : List TicketCreateData) (s : TicketStorage)
    (it : TicketCreateData) (hit : it ∈ items)
    (hbad : ∃ e, validateDependencies (it.blockedBy.getD []) s none = .error e) :
    ∃ e, validateAllCreate items s = .error e := by
  induction items with
  | nil => cases hit
  | cons it₀ rest ih =>
    cases hv : validateDependencies (it₀.blockedBy.getD []) s none with
    | error e => exact ⟨e, by simp [validateAllCreate, hv]⟩
    | ok r =>
      rcases List.mem_cons.mp hit with h₁ | h₁
      · subst h₁
        obtain ⟨e, he⟩ := hbad
        rw [hv] at he
        simp at he
      · obtain ⟨e, he⟩ := ih h₁
        exact ⟨e, by simp [validateAllCreate, hv, he]⟩

theorem updPhase2_error_of_bad (updates : List TicketUpdateData)
    (s : TicketStorage) (u : TicketUpdateData) (bb : List String)
    (hu : u ∈ updates) (hbb : u.blockedBy = some bb)
    (hbad : (∃ e, validateDependencies bb s (some u.ticketId) = .error e) ∨
      (∃ e, checkCircularDependency u.ticketId bb s = .error e)) :
    ∃ e, updPhase2 updates s = .error e := by
  induction updates with
  | nil => cases hu
  | cons u₀ rest ih =>
    rcases List.mem_cons.mp hu with h₁ | h₁
    · subst h₁
      cases hv : validateDependencies bb s (some u.ticketId) with
      | error e => exact ⟨e, by simp [updPhase2, hbb, hv]⟩
      | ok r =>
        cases hc : checkCircularDependency u.ticketId bb s with
        | error e => exact ⟨e, by simp [updPhase2, hbb, hv, hc]⟩
        | ok r' =>
          rcases hbad with ⟨e, he⟩ | ⟨e, he⟩
          · rw [hv] at he; simp at he
          · rw [hc] at he; simp at he
    · cases hb₀ : u₀.blockedBy with
      | none =>
        obtain ⟨e, he⟩ := ih h₁
        exact ⟨e, by simp [updPhase2, hb₀, he]⟩
      | some bb₀ =>
        cases hv₀ : validateDependencies bb₀ s (some u₀.ticketId) with
        | error e => exact ⟨e, by simp [updPhase2, hb₀, hv₀]⟩
        | ok r =>
          cases hc₀ : checkCircularDependency u₀.ticketId bb₀ s with
          | error e => exact ⟨e, by simp [updPhase2, hb₀, hv₀, hc₀]⟩
          | ok r' =>
            obtain ⟨e, he⟩ := ih h₁
            exact ⟨e, by simp [updPhase2, hb₀, hv₀, hc₀, he]⟩

/-! ### C2: batch create/update atomicity -/

/-- C2: `createTickets` and `updateTickets` are atomic with respect to the
persisted document: a thrown error leaves the persisted document exactly as
it was (the single write happens after all validation), and a batch
containing an item that fails existence validation, self-dependency
validation, the not-found lookup, or the circular-dependency check makes
the whole operation throw. -/
theorem batch_ops_atomic (items : List TicketCreateData)
    (updates : List TicketUpdateData) (now : String) (s : TicketStorage) :
    ((∃ e, createTickets items now s = .error e) →
      persist (createTickets items now s) s = s) ∧
    ((∃ e, updateTickets updates now s = .error e) →
      persist (updateTickets updates now s) s = s) ∧
    ((∃ it ∈ items, ∃ e, validateDependencies (it.blockedBy.getD []) s none = .error e) →
      ∃ e, createTickets items now s = .error e) ∧
    ((∃ u ∈ updates, getObj s.tickets u.ticketId = none ∨
        ∃ bb, u.blockedBy = some bb ∧
          ((∃ e, validateDependencies bb s (some u.ticketId) = .error e) ∨
            (∃ e, checkCircularDependency u.ticketId bb s = .error e))) →
      ∃ e, updateTickets updates now s = .error e) := by
  refine ⟨?_, ?_, ?_, ?_⟩
  · rintro ⟨e, he⟩
    rw [he]
    rfl
  · rintro ⟨e, he⟩
    rw [he]
    rfl
  · rintro ⟨it, hit, hbad⟩
    cases hval : validateAllCreate items s with
    | error e => exact ⟨e, by simp [createTickets, hval]⟩
    | ok r =>
      obtain ⟨e, he⟩ := validateAllCreate_error items s it hit hbad
      rw [hval] at he
      simp at he
  · rintro ⟨u, hu, hmiss | ⟨bb, hbb, hbad⟩⟩
    · obtain ⟨e, he⟩ := updPhase1_error_of_missing updates s u hu hmiss
      exact ⟨e, by simp [updateTickets, he]⟩
    · cases hp1 : updPhase1 updates s with
      | error e => exact ⟨e, by simp [updateTickets, hp1]⟩
      | ok r =>
        obtain ⟨e, he⟩ := updPhase2_error_of_bad updates s u bb hu hbb hbad
        exact ⟨e, by simp [updateTickets, hp1, he]⟩

/-- Witness for C2: the mixed batch fails as a whole and the persisted
document is unchanged. -/
theorem batch_ops_atomic_witness :
    (∃ e, updateTickets badBatch "2024-02-02T00:00:00.000Z" storageAB = .error e) ∧
      persist (updateTickets badBatch "2024-02-02T00:00:00.000Z" storageAB) storageAB =
        storageAB := by
  have hthm := batch_ops_atomic [] badBatch "2024-02-02T00:00:00.000Z" storageAB
  have herr := hthm.2.2.2 ⟨{ ticketId := "MISSING", title := some "x" },
    by decide, Or.inl rfl⟩
  exact ⟨herr, hthm.2.1 herr⟩

/-! ### C1: a jointly cyclic update batch is committed (code bug) -/

/-- C1 (refuted — code bug): `updateTickets` validates each update's cycle
check against the pre-batch document only, so the jointly cyclic batch
`[{A, blockedBy:[B]}, {B, blockedBy:[A]}]` succeeds and persists a document
whose `blockedBy` graph has the cycle A→B→A — a document the code's own
`checkCircularDependency` immediately rejects.  By contrast the same cycle
presented as a single update is rejected (last conjunct). -/
theorem updateTickets_jointly_cyclic_commits :
    (∃ ts s', updateTickets jointlyCyclicBatch "2024-02-01T00:00:00.000Z" storageAB =
        .ok (ts, s') ∧
      persist (updateTickets jointlyCyclicBatch "2024-02-01T00:00:00.000Z" storageAB)
        storageAB = s' ∧
      (∃ t₁, getObj s'.tickets "TICKET-0001" = some t₁ ∧ t₁.blockedBy = ["TICKET-0002"]) ∧
      (∃ t₂, getObj s'.tickets "TICKET-0002" = some t₂ ∧ t₂.blockedBy = ["TICKET-0001"]) ∧
      checkCircularDependency "TICKET-0001" ["TICKET-0002"] s' =
        .error (.invalidParams "Circular dependency detected")) ∧
    updateTickets [{ ticketId := "TICKET-0001", blockedBy := some ["TICKET-0002"] }]
        "2024-02-01T00:00:00.000Z" storageBA =
      .error (.invalidParams "Circular dependency detected") := by
  refine ⟨⟨_, _, rfl, rfl, ⟨_, rfl, rfl⟩, ⟨_, rfl, rfl⟩, by decide⟩, by decide⟩

/-! ### Self-reference lemmas for the cycle check -/

theorem hasCycleAux_mem_visiting (adj : String → List String) (fuel : Nat)
    (visiting visited : List String) (id : String) (h : id ∈ visiting) :
    (hasCycleAux adj fuel visiting visited id).1 = true := by
  cases fuel with
  | zero => rfl
  | succ n => simp [hasCycleAux, h]

theorem hasCycleList_finds (step : List String → String → Bool × List String)
    (visited deps : List String) (d : String) (hd : d ∈ deps)
    (hstep : ∀ vis, (step vis d).1 = true) :
    (hasCycleList step visited deps).1 = true := by
  induction deps generalizing visited with
  | nil => cases hd
  | cons d₀ rest ih =>
    rcases hres : step visited d₀ with ⟨b, v'⟩
    cases b with
    | true => simp [hasCycleList, hres]
    | false =>
      rcases List.mem_cons.mp hd with h₁ | h₁
      · subst h₁
        have := hstep visited
        rw [hres] at this
        simp at this
      · simpa [hasCycleList, hres] using ih v' h₁

/-- A candidate edge list containing the candidate's own id always trips
`checkCircularDependency` (the DFS meets the root on its own path at once). -/
theorem checkCircularDependency_self (tid : String) (bb : List String)
    (s : TicketStorage) (h : tid ∈ bb) :
    checkCircularDependency tid bb s =
      .error (.invalidParams "Circular dependency detected") := by
  have hadj : tid ∈ adjOf tid bb s tid := by simp [adjOf, h]
  have hstep : ∀ vis,
      (hasCycleAux (adjOf tid bb s) (allNodes tid bb s).length ([] ++ [tid]) vis tid).1
        = true := by
    intro vis
    exact hasCycleAux_mem_visiting _ _ _ _ _ (by simp)
  have hroot : (hasCycleAux (adjOf tid bb s) (cycleFuel tid bb s) [] [] tid).1 = true := by
    rw [show cycleFuel tid bb s = (allNodes tid bb s).length + 1 from rfl]
    rw [show ((hasCycleAux (adjOf tid bb s) ((allNodes tid bb s).length + 1) [] [] tid)) =
      (match hasCycleList
          (fun vis d => hasCycleAux (adjOf tid bb s) (allNodes tid bb s).length
            (tid :: []) vis d) [] (adjOf tid bb s tid) with
        | (true, visited') => (true, visited')
        | (false, visited') => (false, tid :: visited')) by simp [hasCycleAux]]
    rcases hres : hasCycleList
        (fun vis d => hasCycleAux (adjOf tid bb s) (allNodes tid bb s).length
          (tid :: []) vis d) [] (adjOf tid bb s tid) with ⟨b, v'⟩
    cases b with
    | true => simp
    | false =>
      have := hasCycleList_finds _ [] _ tid hadj (by simpa using hstep)
      rw [hres] at this
      simp at this
  simp [checkCircularDependency, hroot]

/-! ### C6: self-references -/

/-- C6 counterexample: the v0.1.0→v0.2.0 migration copies `dependencies`
verbatim, so a legacy self-reference survives into the committed v0.2.0
document, refuting "the migration step never preserves such a
self-reference". -/
theorem migration_preserves_self_reference :
    ∃ t, getObj (migrateFrom0_1_0To0_2_0 selfRefLegacy).newData.tickets
        "TICKET-0001" = some t ∧ t.id ∈ t.blockedBy :=
  ⟨_, rfl, by decide⟩

theorem validateDependencies_self_error (deps : List String) (s : TicketStorage)
    (excl : String) (h : excl ∈ deps) :
    ∃ e, validateDependencies deps s (some excl) = .error e := by
  induction deps with
  | nil => cases h
  | cons d₀ rest ih =>
    by_cases h₀ : some d₀ = (some excl : Option String)
    · exact ⟨.invalidParams "A ticket cannot depend on itself",
        by simp [validateDependencies, h₀]⟩
    · have hne : d₀ ≠ excl := fun hh => h₀ (by rw [hh])
      have hmem : excl ∈ rest := by
        rcases List.mem_cons.mp h with h₁ | h₁
        · exact absurd h₁.symm hne
        · exact h₁
      by_cases hmiss : (getObj s.tickets d₀).isNone
      · exact ⟨.invalidParams (String.append "Dependency ticket "
          (String.append d₀ " does not exist")),
          by simp [validateDependencies, h₀, hmiss]⟩
      · obtain ⟨e, he⟩ := ih hmem
        exact ⟨e, by simp [validateDependencies, h₀, hmiss, he]⟩

theorem createPass2_no_self (now : String) (items : List TicketCreateData) :
    ∀ (s : TicketStorage) (ts : List Ticket) (s₂ : TicketStorage),
      createPass2 now items s = .ok (ts, s₂) → ∀ t ∈ ts, t.id ∉ t.blockedBy := by
  induction items with
  | nil =>
    intro s ts s₂ h t ht
    simp [createPass2] at h
    rw [h.1] at ht
    cases ht
  | cons it rest ih =>
    intro s ts s₂ h t ht
    rcases hgen : generateId s with ⟨id, s₁⟩
    simp only [createPass2, hgen] at h
    cases hchk : checkCircularDependency id (it.blockedBy.getD []) s₁ with
    | error e => simp only [hchk] at h; simp at h
    | ok r =>
      simp only [hchk] at h
      cases hrec : createPass2 now rest { s₁ with tickets :=
          (setObj s₁.tickets id
            { id := id, title := it.title, description := it.description,
              projects := it.projects, blockedBy := it.blockedBy.getD [],
              createdAt := now, updatedAt := now, status := "open" }) } with
      | error e => rw [hrec] at h; simp at h
      | ok pr =>
        rw [hrec] at h
        simp only [Except.ok.injEq, Prod.mk.injEq] at h
        obtain ⟨hts, _⟩ := h
        rw [← hts] at ht
        rcases List.mem_cons.mp ht with h₁ | h₁
        · subst h₁
          intro hmem
          have hself := checkCircularDependency_self id (it.blockedBy.getD []) s₁ hmem
          rw [hchk] at hself
          simp at hself
        · exact ih _ pr.1 pr.2 (by rw [hrec]) t h₁

/-- C6 (amended): `update` rejects a self-dependency, no successful
`createTickets` batch commits a ticket whose `blockedBy` contains its own
id, and the v0.1.0→v0.2.0 migration copies each ticket's legacy
`dependencies` verbatim into `blockedBy` — hence it introduces no
self-reference on self-reference-free legacy input, but (contrary to the
original claim, see the counterexample) preserves one already present. -/
theorem self_reference_rejected_amended :
    (∀ (updates : List TicketUpdateData) (now : String) (s : TicketStorage)
      (u : TicketUpdateData) (bb : List String), u ∈ updates →
      u.blockedBy = some bb → u.ticketId ∈ bb →
      ∃ e, updateTickets updates now s = .error e) ∧
    (∀ (items : List TicketCreateData) (now : String) (s : TicketStorage)
      (ts : List Ticket) (s' : TicketStorage), createTickets items now s = .ok (ts, s') →
      ∀ t ∈ ts, t.id ∉ t.blockedBy) ∧
    (∀ lt : LegacyTicket, (migrateTicket lt).id = lt.id ∧
      (migrateTicket lt).blockedBy = lt.dependencies) ∧
    (∀ legacy : LegacyTicketStorage,
      (∀ e ∈ legacy.tickets, e.2.id ∉ e.2.dependencies) →
      ∀ e' ∈ (migrateFrom0_1_0To0_2_0 legacy).newData.tickets,
        e'.2.id ∉ e'.2.blockedBy) := by
  refine ⟨?_, ?_, ?_, ?_⟩
  · intro updates now s u bb hu hbb hself
    cases hp1 : updPhase1 updates s with
    | error e => exact ⟨e, by simp [updateTickets, hp1]⟩
    | ok r =>
      obtain ⟨e, he⟩ := updPhase2_error_of_bad updates s u bb hu hbb
        (Or.inl (validateDependencies_self_error bb s u.ticketId hself))
      exact ⟨e, by simp [updateTickets, hp1, he]⟩
  · intro items now s ts s' h
    cases hval : validateAllCreate items s with
    | error e => simp [createTickets, hval] at h
    | ok r =>
      exact createPass2_no_self now items s ts s' (by simpa [createTickets, hval] using h)
  · intro lt
    exact ⟨rfl, rfl⟩
  · intro legacy hclean e' he'
    simp only [migrateFrom0_1_0To0_2_0, List.mem_map] at he'
    obtain ⟨e, he, heq⟩ := he'
    rw [← heq]
    exact hclean e he

/-- Witness for the amended C6: a concrete self-dependency update is
rejected, and migrating a clean legacy document yields no self-reference. -/
theorem self_reference_rejected_amended_witness :
    (∃ e, updateTickets [{ ticketId := "TICKET-0001", blockedBy := some ["TICKET-0001"] }]
        "2024-02-02T00:00:00.000Z" storageAB = .error e) ∧
    (∀ e' ∈ (migrateFrom0_1_0To0_2_0
        { tickets := [("TICKET-0001",
            { id := "TICKET-0001", title := "legacy", description := "", projects := [],
              dependencies := [], createdAt := "2023-01-01T00:00:00.000Z",
              updatedAt := "2023-01-01T00:00:00.000Z", status := "open" })],
          nextId := 2 }).newData.tickets, e'.2.id ∉ e'.2.blockedBy) :=
  ⟨self_reference_rejected_amended.1 _ "2024-02-02T00:00:00.000Z" storageAB _
      ["TICKET-0001"] (List.mem_singleton_self _) rfl (by decide),
    self_reference_rejected_amended.2.2.2 _ (by decide)⟩

/-! ### C4: nextTickets soundness -/

theorem nextFilter_spec (s : TicketStorage) (t : Ticket)
    (h : nextFilter s t = true) :
    t.status ≠ "closed" ∧ (t.blockedBy = [] ∨
      ∀ depId ∈ t.blockedBy, ∃ dt, getObj s.tickets depId = some dt ∧
        dt.status = "closed") := by
  unfold nextFilter at h
  by_cases hc : t.status = "closed"
  · simp [hc] at h
  · refine ⟨hc, ?_⟩
    by_cases he : t.blockedBy.isEmpty
    · exact Or.inl (List.isEmpty_iff.mp he)
    · right
      simp only [if_neg hc, if_neg he, List.all_eq_true] at h
      intro depId hdep
      have hone := h depId hdep
      cases hdt : getObj s.tickets depId with
      | none => rw [hdt] at hone; simp at hone
      | some dt =>
        rw [hdt] at hone
        simp at hone
        exact ⟨dt, rfl, hone⟩

/-- C4: every ticket returned by `nextTickets` has status other than
`closed`, and its underlying stored ticket is ready: `blockedBy` empty, or
every referenced id resolves to a stored ticket with status `closed` (so a
dangling reference excludes the ticket). -/
theorem nextTickets_ready (project : Option String) (dateKey : String → Int)
    (s : TicketStorage) (nt : NextTicket) (h : nt ∈ nextTickets project dateKey s) :
    nt.status ≠ "closed" ∧ ∃ t ∈ valuesObj s.tickets, t.id = nt.id ∧
      t.status = nt.status ∧ (t.blockedBy = [] ∨
        ∀ depId ∈ t.blockedBy, ∃ dt, getObj s.tickets depId = some dt ∧
          dt.status = "closed") := by
  simp only [nextTickets, List.mem_map] at h
  obtain ⟨t, hts, hnt⟩ := h
  have hvis := List.mem_mergeSort.mp hts
  have hready : t ∈ (valuesObj s.tickets).filter (nextFilter s) := by
    cases project with
    | none => exact hvis
    | some p => exact (List.mem_filter.mp hvis).1
  obtain ⟨hmem, hfil⟩ := List.mem_filter.mp hready
  obtain ⟨hc, hrest⟩ := nextFilter_spec s t hfil
  constructor
  · rw [← hnt]
    exact hc
  · exact ⟨t, hmem, by rw [← hnt], by rw [← hnt], hrest⟩

/-- Witness for C4 at a concrete document. -/
theorem nextTickets_ready_witness :
    nextA.status ≠ "closed" ∧ ∃ t ∈ valuesObj storageA.tickets, t.id = nextA.id ∧
      t.status = nextA.status ∧ (t.blockedBy = [] ∨
        ∀ depId ∈ t.blockedBy, ∃ dt, getObj storageA.tickets depId = some dt ∧
          dt.status = "closed") :=
  nextTickets_ready none (fun _ => 0) storageA nextA (by
    have hl : nextTickets none (fun _ => 0) storageA = [nextA] := by
      have hfil : List.filter (nextFilter storageA) (valuesObj storageA.tickets) =
          [ticketA] := by decide
      simp [nextTickets, hfil, List.mergeSort]
      rfl
    rw [hl]
    exact List.mem_singleton_self _)

/-! ### C5: research tree termination and closed-ticket exclusion -/

theorem filter_notmem_cons_split (x : String) (v : List String) (l : List String) :
    l.filter (fun y => y ∉ (x :: v)) =
      (l.filter (fun y => y ∉ v)).filter (fun y => y ≠ x) := by
  rw [List.filter_filter]
  apply List.filter_congr
  intro a _
  by_cases hax : a = x
  · simp [List.mem_cons, hax]
  · by_cases hav : a ∈ v
    · simp [List.mem_cons, hax, hav]
    · simp [List.mem_cons, hax, hav]

theorem freshCount_cons_lt (s : TicketStorage) (x : String) (v : List String)
    (hxv : x ∉ v) (hx : x ∈ ((valuesObj s.tickets).map Ticket.id).dedup) :
    freshCount s (x :: v) < freshCount s v := by
  unfold freshCount
  rw [filter_notmem_cons_split]
  apply List.length_filter_lt_length_iff_exists.mpr
  exact ⟨x, List.mem_filter.mpr ⟨hx, by simp [hxv]⟩, by simp⟩

theorem freshCount_cons_eq (s : TicketStorage) (x : String) (v : List String)
    (hx : x ∉ ((valuesObj s.tickets).map Ticket.id).dedup) :
    freshCount s (x :: v) = freshCount s v := by
  unfold freshCount
  congr 1
  apply List.filter_congr
  intro a ha
  have hax : a ≠ x := fun hh => hx (hh ▸ ha)
  simp [List.mem_cons, hax]

theorem buildAuxList_isSome (step : String → Option (List ResearchTreeNode))
    (deps : List Ticket) (h : ∀ d ∈ deps, (step d.id).isSome) :
    (buildAuxList step deps).isSome := by
  induction deps with
  | nil => simp [buildAuxList]
  | cons d rest ih =>
    cases hs : step d.id with
    | none =>
      have := h d (List.mem_cons_self _ _)
      rw [hs] at this
      simp at this
    | some sub =>
      have hrest := ih (fun d' hd' => h d' (List.mem_cons_of_mem _ hd'))
      obtain ⟨ns, hns⟩ := Option.isSome_iff_exists.mp hrest
      simp [buildAuxList, hs, hns]

theorem buildAux_isSome (s : TicketStorage) :
    ∀ (fuel : Nat) (tid : String) (visited : List String),
      (tid ∈ ((valuesObj s.tickets).map Ticket.id).dedup →
        freshCount s visited < fuel) →
      (tid ∉ ((valuesObj s.tickets).map Ticket.id).dedup →
        freshCount s visited + 1 < fuel) →
      (buildAux s fuel tid visited).isSome := by
  intro fuel
  induction fuel with
  | zero =>
    intro tid visited h1 h2
    by_cases hmem : tid ∈ ((valuesObj s.tickets).map Ticket.id).dedup
    · exact absurd (h1 hmem) (Nat.not_lt_zero _)
    · exact absurd (h2 hmem) (Nat.not_lt_zero _)
  | succ n ih =>
    intro tid visited h1 h2
    by_cases hv : tid ∈ visited
    · simp [buildAux, hv]
    · simp only [buildAux, if_neg hv]
      apply buildAuxList_isSome
      intro d hd
      have hdmem : d ∈ valuesObj s.tickets := (List.mem_filter.mp hd).1
      have hdid : d.id ∈ ((valuesObj s.tickets).map Ticket.id).dedup :=
        List.mem_dedup.mpr (List.mem_map_of_mem Ticket.id hdmem)
      apply ih
      · intro _
        by_cases htid : tid ∈ ((valuesObj s.tickets).map Ticket.id).dedup
        · have hlt : freshCount s (tid :: visited) < freshCount s visited :=
            freshCount_cons_lt s tid visited hv htid
          have := h1 htid
          omega
        · have heq : freshCount s (tid :: visited) = freshCount s visited :=
            freshCount_cons_eq s tid visited htid
          have := h2 htid
          omega
      · intro hdnot
        exact absurd hdid hdnot

theorem buildAuxList_closedFree (s : TicketStorage)
    (step : String → Option (List ResearchTreeNode)) (deps : List Ticket)
    (hstep : ∀ d ∈ deps, ∀ r, step d.id = some r → closedFreeForest s r = true)
    (hdeps : ∀ d ∈ deps, d ∈ valuesObj s.tickets ∧ d.status ≠ "closed") :
    ∀ r, buildAuxList step deps = some r → closedFreeForest s r = true := by
  induction deps with
  | nil =>
    intro r h
    simp [buildAuxList] at h
    rw [h]
    simp [closedFreeForest]
  | cons d rest ih =>
    intro r h
    cases hs : step d.id with
    | none => rw [buildAuxList, hs] at h; simp at h
    | some sub =>
      rw [buildAuxList, hs] at h
      cases hrec : buildAuxList step rest with
      | none => rw [hrec] at h; simp at h
      | some ns =>
        rw [hrec] at h
        simp only [Option.some.injEq] at h
        rw [← h]
        have hany : (valuesObj s.tickets).any
            (fun t => t.id == d.id && t.status != "closed") = true := by
          rw [List.any_eq_true]
          refine ⟨d, (hdeps d (List.mem_cons_self _ _)).1, ?_⟩
          simp [(hdeps d (List.mem_cons_self _ _)).2]
        have hsub := hstep d (List.mem_cons_self _ _) sub hs
        have hns := ih (fun d' hd' => hstep d' (List.mem_cons_of_mem _ hd'))
          (fun d' hd' => hdeps d' (List.mem_cons_of_mem _ hd')) ns hrec
        simp [closedFreeForest, hany, hsub, hns]

theorem buildAux_closedFree (s : TicketStorage) :
    ∀ (fuel : Nat) (tid : String) (visited : List String) (r : List ResearchTreeNode),
      buildAux s fuel tid visited = some r → closedFreeForest s r = true := by
  intro fuel
  induction fuel with
  | zero => intro tid visited r h; simp [buildAux] at h
  | succ n ih =>
    intro tid visited r h
    by_cases hv : tid ∈ visited
    · simp [buildAux, hv] at h
      rw [h]
      simp [closedFreeForest]

    · simp only [buildAux, if_neg hv] at h
      apply buildAuxList_closedFree s _ _ _ _ r h
      · intro d _ r' h'
        exact ih d.id (tid :: visited) r' h'
      · intro d hd
        obtain ⟨hmem, hpred⟩ := List.mem_filter.mp hd
        refine ⟨hmem, ?_⟩
        simp only [Bool.and_eq_true] at hpred
        simpa using hpred.2

/-- C5: for every stored document — cyclic `blockedBy` graphs included —
the fuel `buildResearchTree` runs `buildAux` with is never exhausted (the
recursion terminates: each path adds a fresh id to the path-local visited
set), and no node of the returned forest names a `closed` ticket. -/
theorem buildResearchTree_total_closedFree (s : TicketStorage) (ticketId : String) :
    (buildAux s (buildFuel s) ticketId []).isSome ∧
      closedFreeForest s (buildResearchTree ticketId s) = true := by
  have hfresh : freshCount s [] =
      (((valuesObj s.tickets).map Ticket.id).dedup).length := by
    unfold freshCount
    congr 1
    apply List.filter_eq_self.mpr
    intro a _
    simp
  have hsome : (buildAux s (buildFuel s) ticketId []).isSome := by
    apply buildAux_isSome
    · intro _
      rw [hfresh, buildFuel]
      omega
    · intro _
      rw [hfresh, buildFuel]
      omega
  refine ⟨hsome, ?_⟩
  obtain ⟨r, hr⟩ := Option.isSome_iff_exists.mp hsome
  rw [buildResearchTree, hr]
  exact buildAux_closedFree s (buildFuel s) ticketId [] r hr

/-! ### C3: DFS cycle detection is correct

The hypothetical graph of a `checkCircularDependency ticketId blockedBy s`
call is the one `adjOf` describes.  `CycleReachable adj root` is the
mathematical property the claim states: some vertex on a (nonempty) cycle
is reachable from `root`. -/

theorem isStack_reach (adj : String → List String) (root : String) :
    ∀ (visiting : List String) (id : String), IsStack adj root visiting id →
      Relation.ReflTransGen (DepEdge adj) root id := by
  intro visiting
  induction visiting with
  | nil =>
    intro id h
    rw [show id = root from h]
  | cons v rest ih =>
    intro id h
    exact Relation.ReflTransGen.tail (ih v h.2) h.1

theorem isStack_reach_from_mem (adj : String → List String) (root : String) :
    ∀ (visiting : List String) (v id : String), IsStack adj root visiting v →
      id ∈ visiting → Relation.ReflTransGen (DepEdge adj) id v := by
  intro visiting
  induction visiting with
  | nil => intro v id _ hmem; cases hmem
  | cons w rest ih =>
    intro v id h hmem
    rcases List.mem_cons.mp hmem with h₁ | h₁
    · subst h₁
      exact Relation.ReflTransGen.single h.1
    · exact Relation.ReflTransGen.tail (ih w id h.2 h₁) h.1

theorem isStack_mem_cycle (adj : String → List String) (root : String)
    (visiting : List String) (id : String) (hst : IsStack adj root visiting id)
    (hmem : id ∈ visiting) : Relation.TransGen (DepEdge adj) id id := by
  cases visiting with
  | nil => cases hmem
  | cons v rest =>
    rcases List.mem_cons.mp hmem with h₁ | h₁
    · subst h₁
      exact Relation.TransGen.single hst.1
    · exact Relation.TransGen.tail'
        (isStack_reach_from_mem adj root rest v id hst.2 h₁) hst.1

/-- Entries found by `getObj` are values of the list. -/
theorem getObj_mem_value (m : List (String × Ticket)) (k : String) (t : Ticket)
    (h : getObj m k = some t) : t ∈ valuesObj m := by
  induction m with
  | nil => simp [getObj] at h
  | cons e rest ih =>
    obtain ⟨k₀, v₀⟩ := e
    by_cases hk : k₀ = k
    · simp [getObj, hk] at h
      rw [← h]
      exact List.mem_cons_self _ _
    · rw [getObj, if_neg hk] at h
      exact List.mem_cons_of_mem _ (ih h)

theorem mem_allNodes_start (ticketId : String) (blockedBy : List String)
    (s : TicketStorage) : ticketId ∈ allNodes ticketId blockedBy s :=
  List.mem_dedup.mpr (List.mem_cons_self _ _)

theorem adjOf_closed (ticketId : String) (blockedBy : List String)
    (s : TicketStorage) (x u : String) (hu : u ∈ adjOf ticketId blockedBy s x) :
    u ∈ allNodes ticketId blockedBy s := by
  apply List.mem_dedup.mpr
  apply List.mem_cons_of_mem
  unfold adjOf at hu
  by_cases hx : x = ticketId
  · rw [if_pos hx] at hu
    exact List.mem_append.mpr (Or.inl (List.mem_append.mpr (Or.inl hu)))
  · rw [if_neg hx] at hu
    cases hgo : getObj s.tickets x with
    | none =>
      rw [hgo] at hu
      change u ∈ ([] : List String) at hu
      cases hu
    | some t =>
      rw [hgo] at hu
      change u ∈ t.blockedBy at hu
      apply List.mem_append.mpr
      right
      apply List.mem_flatten.mpr
      refine ⟨t.blockedBy, ?_, hu⟩
      have hv : t ∈ valuesObj s.tickets := getObj_mem_value s.tickets x t hgo
      unfold valuesObj at hv
      obtain ⟨e, he, het⟩ := List.mem_map.mp hv
      exact List.mem_map.mpr ⟨e, he, by rw [het]⟩

theorem length_filter_notmem_cons_lt (l : List String) (x : String)
    (v : List String) (hxv : x ∉ v) (hx : x ∈ l) :
    (l.filter (fun y => y ∉ (x :: v))).length < (l.filter (fun y => y ∉ v)).length := by
  rw [filter_notmem_cons_split]
  apply List.length_filter_lt_length_iff_exists.mpr
  exact ⟨x, List.mem_filter.mpr ⟨hx, by simp [hxv]⟩, by simp⟩

theorem hasCycleList_sound (step : List String → String → Bool × List String)
    (C : Prop) (deps : List String)
    (hstep : ∀ vis d, d ∈ deps → (step vis d).1 = true → C) :
    ∀ visited, (hasCycleList step visited deps).1 = true → C := by
  induction deps with
  | nil => intro visited h; simp [hasCycleList] at h
  | cons d rest ih =>
    intro visited h
    rcases hs : step visited d with ⟨b, v'⟩
    cases b with
    | true => exact hstep visited d (List.mem_cons_self _ _) (by rw [hs])
    | false =>
      rw [hasCycleList, hs] at h
      exact ih (fun vis d' hd' => hstep vis d' (List.mem_cons_of_mem _ hd')) v' h

theorem hasCycleAux_sound (adj : String → List String) (root : String)
    (allN : List String) (hclosed : ∀ x u, u ∈ adj x → u ∈ allN) :
    ∀ (fuel : Nat) (visiting visited : List String) (id : String),
      IsStack adj root visiting id → id ∈ allN →
      (allN.filter (fun y => y ∉ visiting)).length < fuel →
      (hasCycleAux adj fuel visiting visited id).1 = true →
      CycleReachable adj root := by
  intro fuel
  induction fuel with
  | zero =>
    intro visiting visited id _ _ hfuel _
    exact absurd hfuel (Nat.not_lt_zero _)
  | succ n ih =>
    intro visiting visited id hstack hid hfuel htrue
    by_cases hvis : id ∈ visiting
    · exact ⟨id, isStack_reach adj root visiting id hstack,
        isStack_mem_cycle adj root visiting id hstack hvis⟩
    · by_cases hvtd : id ∈ visited
      · rw [hasCycleAux, if_neg hvis, if_pos hvtd] at htrue
        simp at htrue
      · rw [hasCycleAux, if_neg hvis, if_neg hvtd] at htrue
        rcases hres : hasCycleList
            (fun vis d => hasCycleAux adj n (id :: visiting) vis d)
            visited (adj id) with ⟨b, v'⟩
        cases b with
        | false => rw [hres] at htrue; simp at htrue
        | true =>
          revert htrue
          rw [hres]
          intro _
          apply hasCycleList_sound _ _ (adj id) ?_ visited (by rw [hres])
          intro vis d hd hrec
          apply ih (id :: visiting) vis d ⟨hd, hstack⟩ (hclosed id d hd) ?_ hrec
          have hdec := length_filter_notmem_cons_lt allN id visiting hvis hid
          omega


theorem reach_closed (adj : String → List String) (vis : List String)
    (hcl : ∀ v ∈ vis, ∀ u, DepEdge adj v u → u ∈ vis)
    (u w : String) (hu : u ∈ vis)
    (hr : Relation.ReflTransGen (DepEdge adj) u w) : w ∈ vis := by
  induction hr with
  | refl => exact hu
  | tail hseg hstep ih => exact hcl _ ih _ hstep

theorem hasCycleList_complete (adj : String → List String)
    (step : List String → String → Bool × List String) (Q : String → Prop)
    (deps : List String)
    (hstep : ∀ vis vis' d, d ∈ deps → BlackInv adj vis → step vis d = (false, vis') →
      BlackInv adj vis' ∧ d ∈ vis' ∧ (∀ x ∈ vis, x ∈ vis') ∧
        (∀ x ∈ vis', x ∈ vis ∨ Q x)) :
    ∀ visited visited', BlackInv adj visited →
      hasCycleList step visited deps = (false, visited') →
      BlackInv adj visited' ∧ (∀ d ∈ deps, d ∈ visited') ∧
        (∀ x ∈ visited, x ∈ visited') ∧ (∀ x ∈ visited', x ∈ visited ∨ Q x) := by
  induction deps with
  | nil =>
    intro visited visited' hInv h
    rw [hasCycleList] at h
    simp only [Prod.mk.injEq] at h
    rw [← h.2]
    exact ⟨hInv, fun d hd => absurd hd (List.not_mem_nil d),
      fun x hx => hx, fun x hx => Or.inl hx⟩
  | cons d rest ih =>
    intro visited visited' hInv h
    rcases hs : step visited d with ⟨b, v₁⟩
    cases b with
    | true => rw [hasCycleList, hs] at h; simp at h
    | false =>
      rw [hasCycleList, hs] at h
      obtain ⟨hInv₁, hd₁, hmono₁, hnew₁⟩ :=
        hstep visited v₁ d (List.mem_cons_self _ _) hInv hs
      obtain ⟨hInv₂, hdeps₂, hmono₂, hnew₂⟩ :=
        ih (fun vis vis' d' hd' => hstep vis vis' d' (List.mem_cons_of_mem _ hd'))
          v₁ visited' hInv₁ h
      refine ⟨hInv₂, ?_, fun x hx => hmono₂ x (hmono₁ x hx), ?_⟩
      · intro d' hd'
        rcases List.mem_cons.mp hd' with h₁ | h₁
        · exact h₁ ▸ hmono₂ d hd₁
        · exact hdeps₂ d' h₁
      · intro x hx
        rcases hnew₂ x hx with h₁ | h₁
        · exact hnew₁ x h₁
        · exact Or.inr h₁

theorem hasCycleAux_complete (adj : String → List String) :
    ∀ (fuel : Nat) (visiting visited : List String) (id : String)
      (visited' : List String), BlackInv adj visited →
      hasCycleAux adj fuel visiting visited id = (false, visited') →
      BlackInv adj visited' ∧ id ∈ visited' ∧ (∀ x ∈ visited, x ∈ visited') ∧
        (∀ x ∈ visited', x ∈ visited ∨ x ∉ visiting) := by
  intro fuel
  induction fuel with
  | zero =>
    intro visiting visited id visited' _ h
    simp [hasCycleAux] at h
  | succ n ih =>
    intro visiting visited id visited' hInv h
    by_cases hvis : id ∈ visiting
    · rw [hasCycleAux, if_pos hvis] at h
      simp at h
    · by_cases hvtd : id ∈ visited
      · rw [hasCycleAux, if_neg hvis, if_pos hvtd] at h
        simp only [Prod.mk.injEq] at h
        rw [← h.2]
        exact ⟨hInv, hvtd, fun x hx => hx, fun x hx => Or.inl hx⟩
      · rw [hasCycleAux, if_neg hvis, if_neg hvtd] at h
        rcases hres : hasCycleList
            (fun vis d => hasCycleAux adj n (id :: visiting) vis d)
            visited (adj id) with ⟨b, v₁⟩
        cases b with
        | true => rw [hres] at h; simp at h
        | false =>
          rw [hres] at h
          simp only [Prod.mk.injEq] at h
          obtain ⟨hInv₁, hdeps₁, hmono₁, hnew₁⟩ :=
            hasCycleList_complete adj _ (fun x => x ∉ (id :: visiting)) (adj id)
              (fun vis vis' d _ hI hf => ih (id :: visiting) vis d vis' hI hf)
              visited v₁ hInv hres
          have hidnot : id ∉ v₁ := by
            intro hidv
            rcases hnew₁ id hidv with h₁ | h₁
            · exact hvtd h₁
            · exact h₁ (List.mem_cons_self _ _)
          rw [← h.2]
          refine ⟨⟨?_, ?_⟩, List.mem_cons_self _ _,
            fun x hx => List.mem_cons_of_mem _ (hmono₁ x hx), ?_⟩
          · intro v hv u hu
            rcases List.mem_cons.mp hv with h₁ | h₁
            · exact List.mem_cons_of_mem _ (hdeps₁ u (h₁ ▸ hu))
            · exact List.mem_cons_of_mem _ (hInv₁.1 v h₁ u hu)
          · intro v hv hcyc
            rcases List.mem_cons.mp hv with h₁ | h₁
            · subst h₁
              obtain ⟨c, hc, hrest⟩ := Relation.TransGen.head'_iff.mp hcyc
              have hcv : c ∈ v₁ := hdeps₁ c hc
              have hvv : v ∈ v₁ := reach_closed adj v₁ hInv₁.1 c v hcv hrest
              exact hidnot hvv
            · exact hInv₁.2 v h₁ hcyc
          · intro x hx
            rcases List.mem_cons.mp hx with h₁ | h₁
            · exact Or.inr (h₁ ▸ hvis)
            · rcases hnew₁ x h₁ with h₂ | h₂
              · exact Or.inl h₂
              · exact Or.inr (fun hh => h₂ (List.mem_cons_of_mem _ hh))

/-- C3: `checkCircularDependency` throws the circular-dependency error iff
the hypothetical graph (stored tickets' edges, with the candidate edges
substituted for `ticketId`) has a cycle reachable from `ticketId`. -/
theorem checkCircularDependency_iff (ticketId : String) (blockedBy : List String)
    (s : TicketStorage) :
    checkCircularDependency ticketId blockedBy s =
      .error (.invalidParams "Circular dependency detected") ↔
    CycleReachable (adjOf ticketId blockedBy s) ticketId := by
  have hfilnil : ((allNodes ticketId blockedBy s).filter
      (fun y => y ∉ ([] : List String))).length =
      (allNodes ticketId blockedBy s).length := by
    congr 1
    apply List.filter_eq_self.mpr
    intro a _
    simp
  constructor
  · intro h
    have htrue : (hasCycleAux (adjOf ticketId blockedBy s)
        (cycleFuel ticketId blockedBy s) [] [] ticketId).1 = true := by
      cases hb : (hasCycleAux (adjOf ticketId blockedBy s)
          (cycleFuel ticketId blockedBy s) [] [] ticketId).1 with
      | true => rfl
      | false =>
        rw [checkCircularDependency, hb] at h
        simp at h
    exact hasCycleAux_sound (adjOf ticketId blockedBy s) ticketId
      (allNodes ticketId blockedBy s) (adjOf_closed ticketId blockedBy s)
      (cycleFuel ticketId blockedBy s) [] [] ticketId rfl
      (mem_allNodes_start ticketId blockedBy s)
      (by rw [hfilnil, cycleFuel]; omega) htrue
  · intro hcyc
    rcases hres : hasCycleAux (adjOf ticketId blockedBy s)
        (cycleFuel ticketId blockedBy s) [] [] ticketId with ⟨b, v'⟩
    cases b with
    | true => simp [checkCircularDependency, hres]
    | false =>
      exfalso
      have hInvNil : BlackInv (adjOf ticketId blockedBy s) [] :=
        ⟨fun v hv => absurd hv (List.not_mem_nil v),
          fun v hv => absurd hv (List.not_mem_nil v)⟩
      obtain ⟨hInv', htid, _, _⟩ := hasCycleAux_complete
        (adjOf ticketId blockedBy s) (cycleFuel ticketId blockedBy s)
        [] [] ticketId v' hInvNil hres
      obtain ⟨v, hreach, hc⟩ := hcyc
      exact hInv'.2 v (reach_closed _ v' hInv'.1 ticketId v htid hreach) hc

/-! ### C7: findMigrationPath is a shortest-path BFS -/


theorem isChain_snoc (m : List MigrationStep) (g : MigrationStep) (hg : g ∈ m) :
    ∀ (q : List MigrationStep) (a b : String), IsChain m a q b →
      g.fromVersion = b → IsChain m a (q ++ [g]) g.toVersion := by
  intro q
  induction q with
  | nil =>
    intro a b hc hf
    exact ⟨hg, by rw [hf, hc], rfl⟩
  | cons st rest ih =>
    intro a b hc hf
    exact ⟨hc.1, hc.2.1, ih st.toVersion b hc.2.2 hf⟩

theorem pushSuccessors_acc_mono (path : List MigrationStep) :
    ∀ (lst : List MigrationStep) (visited : List String)
      (acc : List (String × List MigrationStep)) (e : String × List MigrationStep),
      e ∈ acc → e ∈ (pushSuccessors path lst visited acc).1 := by
  intro lst
  induction lst with
  | nil => intro visited acc e he; exact he
  | cons g rest ih =>
    intro visited acc e he
    by_cases hv : g.toVersion ∈ visited
    · rw [pushSuccessors, if_pos hv]
      exact ih visited acc e he
    · rw [pushSuccessors, if_neg hv]
      exact ih _ _ e (List.mem_append.mpr (Or.inl he))

theorem pushSuccessors_visited_mono (path : List MigrationStep) :
    ∀ (lst : List MigrationStep) (visited : List String)
      (acc : List (String × List MigrationStep)) (u : String),
      u ∈ visited → u ∈ (pushSuccessors path lst visited acc).2 := by
  intro lst
  induction lst with
  | nil => intro visited acc u hu; exact hu
  | cons g rest ih =>
    intro visited acc u hu
    by_cases hv : g.toVersion ∈ visited
    · rw [pushSuccessors, if_pos hv]
      exact ih visited acc u hu
    · rw [pushSuccessors, if_neg hv]
      exact ih _ _ u (List.mem_cons_of_mem _ hu)

theorem pushSuccessors_acc_elim (path : List MigrationStep) :
    ∀ (lst : List MigrationStep) (visited : List String)
      (acc : List (String × List MigrationStep)) (e : String × List MigrationStep),
      e ∈ (pushSuccessors path lst visited acc).1 →
      e ∈ acc ∨ ∃ g, g ∈ lst ∧ g.toVersion ∉ visited ∧
        e = (g.toVersion, path ++ [g]) := by
  intro lst
  induction lst with
  | nil => intro visited acc e he; exact Or.inl he
  | cons g rest ih =>
    intro visited acc e he
    by_cases hv : g.toVersion ∈ visited
    · rw [pushSuccessors, if_pos hv] at he
      rcases ih visited acc e he with h₁ | ⟨g', hg', hnv, heq⟩
      · exact Or.inl h₁
      · exact Or.inr ⟨g', List.mem_cons_of_mem _ hg', hnv, heq⟩
    · rw [pushSuccessors, if_neg hv] at he
      rcases ih _ _ e he with h₁ | ⟨g', hg', hnv, heq⟩
      · rcases List.mem_append.mp h₁ with h₂ | h₂
        · exact Or.inl h₂
        · refine Or.inr ⟨g, List.mem_cons_self _ _, hv, ?_⟩
          simpa using h₂
      · refine Or.inr ⟨g', List.mem_cons_of_mem _ hg',
          fun hh => hnv (List.mem_cons_of_mem _ hh), heq⟩

theorem pushSuccessors_visited_elim (path : List MigrationStep) :
    ∀ (lst : List MigrationStep) (visited : List String)
      (acc : List (String × List MigrationStep)) (u : String),
      u ∈ (pushSuccessors path lst visited acc).2 →
      u ∈ visited ∨ ∃ p, (u, p) ∈ (pushSuccessors path lst visited acc).1 := by
  intro lst
  induction lst with
  | nil => intro visited acc u hu; exact Or.inl hu
  | cons g rest ih =>
    intro visited acc u hu
    by_cases hv : g.toVersion ∈ visited
    · rw [pushSuccessors, if_pos hv] at hu ⊢
      exact ih visited acc u hu
    · rw [pushSuccessors, if_neg hv] at hu ⊢
      rcases ih _ _ u hu with h₁ | ⟨p, hp⟩
      · rcases List.mem_cons.mp h₁ with h₂ | h₂
        · refine Or.inr ⟨path ++ [g], ?_⟩
          apply pushSuccessors_acc_mono
          rw [h₂]
          simp
        · exact Or.inl h₂
      · exact Or.inr ⟨p, hp⟩

theorem pushSuccessors_entry_visited (path : List MigrationStep) :
    ∀ (lst : List MigrationStep) (visited : List String)
      (acc : List (String × List MigrationStep)) (e : String × List MigrationStep),
      e ∈ (pushSuccessors path lst visited acc).1 →
      e ∈ acc ∨ e.1 ∈ (pushSuccessors path lst visited acc).2 := by
  intro lst
  induction lst with
  | nil => intro visited acc e he; exact Or.inl he
  | cons g rest ih =>
    intro visited acc e he
    by_cases hv : g.toVersion ∈ visited
    · rw [pushSuccessors, if_pos hv] at he ⊢
      exact ih visited acc e he
    · rw [pushSuccessors, if_neg hv] at he ⊢
      rcases ih _ _ e he with h₁ | h₁
      · rcases List.mem_append.mp h₁ with h₂ | h₂
        · exact Or.inl h₂
        · right
          apply pushSuccessors_visited_mono
          simp at h₂
          rw [h₂]
          exact List.mem_cons_self _ _
      · exact Or.inr h₁

theorem pushSuccessors_lst_visited (path : List MigrationStep) :
    ∀ (lst : List MigrationStep) (visited : List String)
      (acc : List (String × List MigrationStep)) (g : MigrationStep),
      g ∈ lst → g.toVersion ∈ (pushSuccessors path lst visited acc).2 := by
  intro lst
  induction lst with
  | nil => intro visited acc g hg; cases hg
  | cons g₀ rest ih =>
    intro visited acc g hg
    by_cases hv : g₀.toVersion ∈ visited
    · rw [pushSuccessors, if_pos hv]
      rcases List.mem_cons.mp hg with h₁ | h₁
      · rw [h₁]
        exact pushSuccessors_visited_mono path rest visited acc _ hv
      · exact ih visited acc g h₁
    · rw [pushSuccessors, if_neg hv]
      rcases List.mem_cons.mp hg with h₁ | h₁
      · rw [h₁]
        exact pushSuccessors_visited_mono path rest _ _ _ (List.mem_cons_self _ _)
      · exact ih _ _ g h₁

theorem filter_toVersion_cons_split (x : String) (v : List String)
    (l : List MigrationStep) :
    l.filter (fun g => g.toVersion ∉ (x :: v)) =
      (l.filter (fun g => g.toVersion ∉ v)).filter (fun g => g.toVersion ≠ x) := by
  rw [List.filter_filter]
  apply List.filter_congr
  intro a _
  by_cases hax : a.toVersion = x
  · simp [List.mem_cons, hax]
  · by_cases hav : a.toVersion ∈ v
    · simp [List.mem_cons, hax, hav]
    · simp [List.mem_cons, hax, hav]

theorem length_filter_toVersion_cons_lt (l : List MigrationStep)
    (g : MigrationStep) (v : List String) (hg : g ∈ l) (hgv : g.toVersion ∉ v) :
    (l.filter (fun e => e.toVersion ∉ (g.toVersion :: v))).length <
      (l.filter (fun e => e.toVersion ∉ v)).length := by
  rw [filter_toVersion_cons_split]
  apply List.length_filter_lt_length_iff_exists.mpr
  exact ⟨g, List.mem_filter.mpr ⟨hg, by simp [hgv]⟩, by simp⟩

theorem pushSuccessors_measure (m : List MigrationStep) (path : List MigrationStep) :
    ∀ (lst : List MigrationStep) (visited : List String)
      (acc : List (String × List MigrationStep)), (∀ g ∈ lst, g ∈ m) →
      (pushSuccessors path lst visited acc).1.length +
        (m.filter (fun g => g.toVersion ∉ (pushSuccessors path lst visited acc).2)).length ≤
      acc.length + (m.filter (fun g => g.toVersion ∉ visited)).length := by
  intro lst
  induction lst with
  | nil => intro visited acc _; exact le_refl _
  | cons g rest ih =>
    intro visited acc hsub
    by_cases hv : g.toVersion ∈ visited
    · rw [pushSuccessors, if_pos hv]
      exact ih visited acc (fun g' hg' => hsub g' (List.mem_cons_of_mem _ hg'))
    · rw [pushSuccessors, if_neg hv]
      have h1 := ih (g.toVersion :: visited) (acc ++ [(g.toVersion, path ++ [g])])
        (fun g' hg' => hsub g' (List.mem_cons_of_mem _ hg'))
      have h2 := length_filter_toVersion_cons_lt m g visited
        (hsub g (List.mem_cons_self _ _)) hv
      have h3 : (acc ++ [(g.toVersion, path ++ [g])]).length = acc.length + 1 := by simp
      omega

theorem pushSuccessors_acc_append (path : List MigrationStep) :
    ∀ (lst : List MigrationStep) (visited : List String)
      (acc : List (String × List MigrationStep)),
      ∃ news, (pushSuccessors path lst visited acc).1 = acc ++ news ∧
        ∀ e ∈ news, ∃ g, g ∈ lst ∧ g.toVersion ∉ visited ∧
          e = (g.toVersion, path ++ [g]) := by
  intro lst
  induction lst with
  | nil => intro visited acc; exact ⟨[], by simp [pushSuccessors], by simp⟩
  | cons g rest ih =>
    intro visited acc
    by_cases hv : g.toVersion ∈ visited
    · rw [pushSuccessors, if_pos hv]
      obtain ⟨news, heq, hspec⟩ := ih visited acc
      exact ⟨news, heq, fun e he =>
        let ⟨g', hg', hnv, he'⟩ := hspec e he
        ⟨g', List.mem_cons_of_mem _ hg', hnv, he'⟩⟩
    · rw [pushSuccessors, if_neg hv]
      obtain ⟨news, heq, hspec⟩ := ih (g.toVersion :: visited)
        (acc ++ [(g.toVersion, path ++ [g])])
      refine ⟨(g.toVersion, path ++ [g]) :: news, by simpa using heq, ?_⟩
      intro e he
      rcases List.mem_cons.mp he with h₁ | h₁
      · exact ⟨g, List.mem_cons_self _ _, hv, h₁⟩
      · obtain ⟨g', hg', hnv, he'⟩ := hspec e h₁
        exact ⟨g', List.mem_cons_of_mem _ hg',
          fun hh => hnv (List.mem_cons_of_mem _ hh), he'⟩

theorem pairwise_of_all {α : Type} (R : α → α → Prop) :
    ∀ l : List α, (∀ a ∈ l, ∀ b ∈ l, R a b) → List.Pairwise R l := by
  intro l
  induction l with
  | nil => intro _; exact List.Pairwise.nil
  | cons a rest ih =>
    intro h
    exact List.Pairwise.cons
      (fun b hb => h a (List.mem_cons_self _ _) b (List.mem_cons_of_mem _ hb))
      (ih (fun x hx y hy =>
        h x (List.mem_cons_of_mem _ hx) y (List.mem_cons_of_mem _ hy)))

theorem bfs_cut (m : List MigrationStep) (src : String)
    (queue : List (String × List MigrationStep)) (visited processed : List String)
    (hP1 : ∀ e ∈ queue, IsChain m src e.2 e.1 ∧ e.1 ∈ visited ∧
      (∀ qa, IsChain m src qa e.1 → e.2.length ≤ qa.length))
    (hP3 : ∀ u, u ∈ visited ↔ (∃ p, (u, p) ∈ queue) ∨ u ∈ processed)
    (hP4 : ∀ a ∈ processed, ∀ st ∈ m, st.fromVersion = a → st.toVersion ∈ visited) :
    ∀ (q : List MigrationStep) (a w : String), a ∈ visited → IsChain m a q w →
      w ∉ visited →
      ∃ e ∈ queue, ∃ r, IsChain m e.1 r w ∧
        ∀ qa, IsChain m src qa a → e.2.length + r.length ≤ qa.length + q.length := by
  intro q
  induction q with
  | nil =>
    intro a w ha hc hw
    exact absurd (hc ▸ ha) hw
  | cons st rest ih =>
    intro a w ha hc hw
    obtain ⟨hstm, hstf, hrest⟩ := hc
    by_cases hto : st.toVersion ∈ visited
    · obtain ⟨e, he, r, hr, hbound⟩ := ih st.toVersion w hto hrest hw
      refine ⟨e, he, r, hr, ?_⟩
      intro qa hqa
      have hsnoc : IsChain m src (qa ++ [st]) st.toVersion :=
        isChain_snoc m st hstm qa src a hqa hstf
      have hb := hbound (qa ++ [st]) hsnoc
      have hlen : (qa ++ [st]).length = qa.length + 1 := by simp
      simp only [List.length_cons]
      omega
    · rcases (hP3 a).mp ha with ⟨p, hp⟩ | hproc
      · refine ⟨(a, p), hp, st :: rest, ⟨hstm, hstf, hrest⟩, ?_⟩
        intro qa hqa
        have hmin : p.length ≤ qa.length := (hP1 (a, p) hp).2.2 qa hqa
        simp only [List.length_cons]
        omega
      · exact absurd (hP4 a hproc st hstm hstf) hto

theorem no_chain_of_empty_queue (m : List MigrationStep) (src toV : String)
    (visited processed : List String) (hsrc : src ∈ visited)
    (hP3 : ∀ u, u ∈ visited ↔
      (∃ p, (u, p) ∈ ([] : List (String × List MigrationStep))) ∨ u ∈ processed)
    (hP4 : ∀ a ∈ processed, ∀ st ∈ m, st.fromVersion = a → st.toVersion ∈ visited)
    (hP6 : toV ∉ processed) : ¬ ∃ q, IsChain m src q toV := by
  rintro ⟨q, hq⟩
  have htv : toV ∉ visited := by
    intro hh
    rcases (hP3 toV).mp hh with ⟨p, hp⟩ | hproc
    · cases hp
    · exact hP6 hproc
  obtain ⟨e, he, _⟩ := bfs_cut m src [] visited processed
    (by intro e he; cases he) hP3 hP4 q src toV hsrc hq htv
  cases he

theorem bfsAux_correct (m : List MigrationStep) (src toV : String) :
    ∀ (fuel : Nat) (queue : List (String × List MigrationStep))
      (visited processed : List String),
      src ∈ visited →
      (∀ e ∈ queue, IsChain m src e.2 e.1 ∧ e.1 ∈ visited ∧
        (∀ qa, IsChain m src qa e.1 → e.2.length ≤ qa.length)) →
      List.Pairwise (fun a b => a.2.length ≤ b.2.length) queue →
      (∀ a ∈ queue, ∀ b ∈ queue, a.2.length ≤ b.2.length + 1) →
      (∀ u, u ∈ visited ↔ (∃ p, (u, p) ∈ queue) ∨ u ∈ processed) →
      (∀ a ∈ processed, ∀ st ∈ m, st.fromVersion = a → st.toVersion ∈ visited) →
      toV ∉ processed →
      queue.length + (m.filter (fun g => g.toVersion ∉ visited)).length ≤ fuel →
      (∀ q, IsChain m src q toV →
        IsChain m src (bfsAux m toV fuel queue visited) toV ∧
        (bfsAux m toV fuel queue visited).length ≤ q.length) ∧
      ((¬ ∃ q, IsChain m src q toV) → bfsAux m toV fuel queue visited = []) := by
  intro fuel
  induction fuel with
  | zero =>
    intro queue visited processed hsrc hP1 hP2a hP2b hP3 hP4 hP6 hfuel
    have hq : queue = [] := List.eq_nil_of_length_eq_zero (by omega)
    subst hq
    refine ⟨?_, fun _ => rfl⟩
    intro q hq
    exact absurd ⟨q, hq⟩ (no_chain_of_empty_queue m src toV visited processed
      hsrc hP3 hP4 hP6)
  | succ f ih =>
    intro queue visited processed hsrc hP1 hP2a hP2b hP3 hP4 hP6 hfuel
    cases queue with
    | nil =>
      refine ⟨?_, fun _ => rfl⟩
      intro q hq
      exact absurd ⟨q, hq⟩ (no_chain_of_empty_queue m src toV visited processed
        hsrc hP3 hP4 hP6)
    | cons hd rest =>
      obtain ⟨cv, path⟩ := hd
      have hheadchain : IsChain m src path cv :=
        (hP1 (cv, path) (List.mem_cons_self _ _)).1
      have hheadvis : cv ∈ visited := (hP1 (cv, path) (List.mem_cons_self _ _)).2.1
      have hheadmin := (hP1 (cv, path) (List.mem_cons_self _ _)).2.2
      by_cases hcv : cv = toV
      · rw [show bfsAux m toV (f + 1) ((cv, path) :: rest) visited = path by
          simp [bfsAux, hcv]]
        refine ⟨?_, ?_⟩
        · intro q hq
          constructor
          · rw [← hcv]
            exact hheadchain
          · apply hheadmin
            show IsChain m src q cv
            rw [hcv]
            exact hq
        · intro hno
          refine absurd ⟨path, ?_⟩ hno
          rw [← hcv]
          exact hheadchain
      · have hheadlen : ∀ b ∈ rest, path.length ≤ b.2.length :=
          (List.pairwise_cons.mp hP2a).1
        rcases hpush : pushSuccessors path
            (m.filter (fun mg => mg.fromVersion = cv)) visited rest with ⟨queue', visited'⟩
        have hrw : bfsAux m toV (f + 1) ((cv, path) :: rest) visited =
            bfsAux m toV f queue' visited' := by
          simp only [bfsAux, if_neg hcv, hpush]
        obtain ⟨news, hqeq₀, hnews⟩ := pushSuccessors_acc_append path
          (m.filter (fun mg => mg.fromVersion = cv)) visited rest
        rw [hpush] at hqeq₀
        have hqeq : queue' = rest ++ news := hqeq₀
        have hnewlen : ∀ e ∈ news, e.2.length = path.length + 1 := by
          intro e he
          obtain ⟨g, _, _, heq⟩ := hnews e he
          rw [heq]
          simp
        have hvmono : ∀ u ∈ visited, u ∈ visited' := by
          intro u hu
          have hh := pushSuccessors_visited_mono path
            (m.filter (fun mg => mg.fromVersion = cv)) visited rest u hu
          rw [hpush] at hh
          exact hh
        have hsrc' : src ∈ visited' := hvmono src hsrc
        have hP1' : ∀ e ∈ queue', IsChain m src e.2 e.1 ∧ e.1 ∈ visited' ∧
            (∀ qa, IsChain m src qa e.1 → e.2.length ≤ qa.length) := by
          intro e he
          rw [hqeq] at he
          rcases List.mem_append.mp he with h₁ | h₁
          · obtain ⟨hc, hv, hm⟩ := hP1 e (List.mem_cons_of_mem _ h₁)
            exact ⟨hc, hvmono e.1 hv, hm⟩
          · obtain ⟨g, hg, hgnv, heq⟩ := hnews e h₁
            have hgm : g ∈ m := (List.mem_filter.mp hg).1
            have hgf : g.fromVersion = cv := by
              simpa using (List.mem_filter.mp hg).2
            have hchain : IsChain m src (path ++ [g]) g.toVersion :=
              isChain_snoc m g hgm path src cv hheadchain hgf
            have hevis : e.1 ∈ visited' := by
              have hh := pushSuccessors_lst_visited path
                (m.filter (fun mg => mg.fromVersion = cv)) visited rest g hg
              rw [hpush] at hh
              rw [heq]
              exact hh
            refine ⟨by rw [heq]; exact hchain, hevis, ?_⟩
            intro qa hqa
            rw [heq] at hqa ⊢
            obtain ⟨e₀, he₀, r, hr, hbound⟩ := bfs_cut m src ((cv, path) :: rest)
              visited processed hP1 hP3 hP4 qa src g.toVersion hsrc hqa hgnv
            have h0 : e₀.2.length + r.length ≤ qa.length := by
              have hb := hbound [] rfl
              simpa using hb
            have hrlen : 1 ≤ r.length := by
              cases r with
              | nil =>
                exfalso
                have : e₀.1 = g.toVersion := hr
                exact hgnv (this ▸ (hP1 e₀ he₀).2.1)
              | cons _ _ => simp
            have hplen : path.length ≤ e₀.2.length := by
              rcases List.mem_cons.mp he₀ with h₂ | h₂
              · rw [h₂]
              · exact hheadlen e₀ h₂
            simp only [List.length_append, List.length_cons, List.length_nil]
            omega
        have hP2a' : List.Pairwise (fun a b => a.2.length ≤ b.2.length) queue' := by
          rw [hqeq]
          apply List.pairwise_append.mpr
          refine ⟨(List.pairwise_cons.mp hP2a).2, ?_, ?_⟩
          · apply pairwise_of_all
            intro a ha b hb
            rw [hnewlen a ha, hnewlen b hb]
          · intro a ha b hb
            have := hP2b a (List.mem_cons_of_mem _ ha) (cv, path)
              (List.mem_cons_self _ _)
            rw [hnewlen b hb]
            exact this
        have hP2b' : ∀ a ∈ queue', ∀ b ∈ queue', a.2.length ≤ b.2.length + 1 := by
          intro a ha b hb
          rw [hqeq] at ha hb
          rcases List.mem_append.mp ha with ha₁ | ha₁ <;>
            rcases List.mem_append.mp hb with hb₁ | hb₁
          · exact hP2b a (List.mem_cons_of_mem _ ha₁) b (List.mem_cons_of_mem _ hb₁)
          · have hup : a.2.length ≤ path.length + 1 := hP2b a
              (List.mem_cons_of_mem _ ha₁) (cv, path) (List.mem_cons_self _ _)
            rw [hnewlen b hb₁]
            omega
          · have hlow : path.length ≤ b.2.length := hheadlen b hb₁
            rw [hnewlen a ha₁]
            omega
          · rw [hnewlen a ha₁, hnewlen b hb₁]
            omega
        have hP3' : ∀ u, u ∈ visited' ↔ (∃ p, (u, p) ∈ queue') ∨
            u ∈ (cv :: processed) := by
          intro u
          constructor
          · intro hu
            have hh := pushSuccessors_visited_elim path
              (m.filter (fun mg => mg.fromVersion = cv)) visited rest u
            rw [hpush] at hh
            rcases hh hu with h₁ | ⟨p, hp⟩
            · rcases (hP3 u).mp h₁ with ⟨p, hp⟩ | hproc
              · rcases List.mem_cons.mp hp with h₂ | h₂
                · right
                  rw [show u = cv from congrArg Prod.fst h₂]
                  exact List.mem_cons_self _ _
                · exact Or.inl ⟨p, by
                    rw [hqeq]
                    exact List.mem_append.mpr (Or.inl h₂)⟩
              · exact Or.inr (List.mem_cons_of_mem _ hproc)
            · exact Or.inl ⟨p, hp⟩
          · intro hu
            rcases hu with ⟨p, hp⟩ | hproc
            · have hh := pushSuccessors_entry_visited path
                (m.filter (fun mg => mg.fromVersion = cv)) visited rest (u, p)
              rw [hpush] at hh
              rcases hh hp with h₁ | h₁
              · exact hvmono u ((hP1 (u, p) (List.mem_cons_of_mem _ h₁)).2.1)
              · exact h₁
            · rcases List.mem_cons.mp hproc with h₁ | h₁
              · exact h₁ ▸ hvmono cv hheadvis
              · exact hvmono u ((hP3 u).mpr (Or.inr h₁))
        have hP4' : ∀ a ∈ (cv :: processed), ∀ st ∈ m, st.fromVersion = a →
            st.toVersion ∈ visited' := by
          intro a ha st hst hstf
          rcases List.mem_cons.mp ha with h₁ | h₁
          · have hmem : st ∈ m.filter (fun mg => mg.fromVersion = cv) :=
              List.mem_filter.mpr ⟨hst, by simp [hstf, h₁]⟩
            have hh := pushSuccessors_lst_visited path
              (m.filter (fun mg => mg.fromVersion = cv)) visited rest st hmem
            rw [hpush] at hh
            exact hh
          · exact hvmono st.toVersion (hP4 a h₁ st hst hstf)
        have hP6' : toV ∉ (cv :: processed) := by
          intro hh
          rcases List.mem_cons.mp hh with h₁ | h₁
          · exact hcv h₁.symm
          · exact hP6 h₁
        have hfuel' : queue'.length +
            (m.filter (fun g => g.toVersion ∉ visited')).length ≤ f := by
          have hms := pushSuccessors_measure m path
            (m.filter (fun mg => mg.fromVersion = cv)) visited rest
            (fun g hg => (List.mem_filter.mp hg).1)
          rw [hpush] at hms
          have hms' : queue'.length +
              (m.filter (fun g => g.toVersion ∉ visited')).length ≤
              rest.length + (m.filter (fun g => g.toVersion ∉ visited)).length := hms
          simp only [List.length_cons] at hfuel
          omega
        rw [hrw]
        exact ih queue' visited' (cv :: processed) hsrc' hP1' hP2a' hP2b' hP3'
          hP4' hP6' hfuel'

/-- C7: `findMigrationPath` returns a chain from the detected to the target
version of minimal length among all catalog chains; it returns `[]` exactly
when (for distinct versions) no chain exists; and on the concrete catalog
`0.1.0→0.2.0, 0.2.0→0.3.0` the path from `0.1.0` to `0.3.0` is exactly
those two steps in order. -/
theorem findMigrationPath_correct (m : List MigrationStep)
    (fromVersion toVersion : String) :
    (∀ q, IsChain m fromVersion q toVersion →
      IsChain m fromVersion (findMigrationPath m fromVersion toVersion) toVersion ∧
      (findMigrationPath m fromVersion toVersion).length ≤ q.length) ∧
    ((¬ ∃ q, IsChain m fromVersion q toVersion) →
      findMigrationPath m fromVersion toVersion = []) ∧
    (fromVersion ≠ toVersion →
      (findMigrationPath m fromVersion toVersion = [] ↔
        ¬ ∃ q, IsChain m fromVersion q toVersion)) ∧
    findMigrationPath [stepA, stepB] "0.1.0" "0.3.0" = [stepA, stepB] := by
  have hmain := bfsAux_correct m fromVersion toVersion (m.length + 1)
    [(fromVersion, [])] [fromVersion] []
    (List.mem_singleton_self _)
    (by
      intro e he
      rw [List.mem_singleton] at he
      subst he
      exact ⟨rfl, List.mem_singleton_self _, fun qa _ => Nat.zero_le _⟩)
    (by simp)
    (by
      intro a ha b hb
      rw [List.mem_singleton] at ha hb
      subst ha
      subst hb
      simp)
    (by
      intro u
      constructor
      · intro hu
        rw [List.mem_singleton] at hu
        subst hu
        exact Or.inl ⟨[], List.mem_singleton_self _⟩
      · rintro (⟨p, hp⟩ | hproc)
        · rw [List.mem_singleton] at hp
          rw [show u = fromVersion from congrArg Prod.fst hp]
          exact List.mem_singleton_self _
        · cases hproc)
    (by intro a ha; cases ha)
    (List.not_mem_nil _)
    (by
      have := List.length_filter_le (fun g => g.toVersion ∉ [fromVersion]) m
      simp only [List.length_singleton]
      omega)
  refine ⟨?_, ?_, ?_, by decide⟩
  · intro q hq
    exact hmain.1 q hq
  · intro hno
    exact hmain.2 hno
  · intro hne
    constructor
    · intro hemp hex
      obtain ⟨q, hq⟩ := hex
      have h1 : IsChain m fromVersion (findMigrationPath m fromVersion toVersion)
          toVersion := (hmain.1 q hq).1
      rw [hemp] at h1
      exact hne h1
    · intro hno
      exact hmain.2 hno

/-- Witness for C7: on the two-step catalog the found path is a minimal
chain, and with the first edge missing no path is found. -/
theorem findMigrationPath_correct_witness :
    (IsChain [stepA, stepB] "0.1.0"
        (findMigrationPath [stepA, stepB] "0.1.0" "0.3.0") "0.3.0" ∧
      (findMigrationPath [stepA, stepB] "0.1.0" "0.3.0").length ≤
        ([stepA, stepB] : List MigrationStep).length) ∧
    findMigrationPath [stepB] "0.1.0" "0.3.0" = [] := by
  constructor
  · refine (findMigrationPath_correct [stepA, stepB] "0.1.0" "0.3.0").1
      [stepA, stepB] ?_
    show stepA ∈ [stepA, stepB] ∧ stepA.fromVersion = "0.1.0" ∧
      IsChain [stepA, stepB] stepA.toVersion [stepB] "0.3.0"
    refine ⟨List.mem_cons_self _ _, rfl, ?_⟩
    show stepB ∈ [stepA, stepB] ∧ stepB.fromVersion = stepA.toVersion ∧
      IsChain [stepA, stepB] stepB.toVersion [] "0.3.0"
    exact ⟨List.mem_cons_of_mem _ (List.mem_cons_self _ _), rfl, rfl⟩
  · apply (findMigrationPath_correct [stepB] "0.1.0" "0.3.0").2.1
    rintro ⟨q, hq⟩
    cases q with
    | nil =>
      have hq' : "0.1.0" = "0.3.0" := hq
      exact absurd hq' (by decide)
    | cons st rest =>
      obtain ⟨hmem, hfrom, _⟩ := hq
      have hst : st = stepB := by simpa using hmem
      rw [hst] at hfrom
      exact absurd hfrom (by decide)

end Kanban
